import Mathlib

/-!
Verification of the property-scraping normalization engine: a shallow
embedding of the parsing modules (`src/preprocessing/firecrawl_parser.py`,
`ui/backend/parsers.py`, `src/agents/simple_extractor.py`) together with
proofs about the embedded functions.

Python strings are modelled as Lean `String`/`List Char`; `re` operations
are modelled by hand-written scanners that follow the concrete regexes of
the source; machine-level details that the source never relies on
(Unicode case folding beyond ASCII, float JSON numbers) are noted at the
definition site.
-/

/-! ## Generic string helpers (Python `in`, `startswith`, `strip`, `lower`) -/

/-- Python `\s` on the ASCII range (space, tab, newline, CR, VT, FF). -/
def isSpaceChar (c : Char) : Bool :=
  c == ' ' || c == '\t' || c == '\n' || c == '\x0d' || c == '\x0b' || c == '\x0c'


/-- `leadsWith needle hay`: `hay` starts with `needle` (Python `startswith`). -/
def leadsWith : List Char → List Char → Bool
  | [], _ => true
  | _ :: _, [] => false
  | a :: as, b :: bs => a == b && leadsWith as bs


/-- `hasSub needle hay`: `needle` occurs as a contiguous run in `hay`
(Python `needle in hay`). -/
def hasSub (needle : List Char) : List Char → Bool
  | [] => needle.isEmpty
  | c :: rest => leadsWith needle (c :: rest) || hasSub needle rest


/-- Python `needle in hay` on strings. -/
def containsStr (hay needle : String) : Bool := hasSub needle.data hay.data


/-- Case-insensitive `leadsWith` (ASCII lowering, as used by `re.IGNORECASE`
on the source's ASCII patterns). -/
def ciLeadsWith (needle hay : List Char) : Bool :=
  leadsWith (needle.map Char.toLower) (hay.map Char.toLower)


/-- Case-insensitive `hasSub`. -/
def ciHasSub (needle : List Char) : List Char → Bool
  | [] => needle.isEmpty
  | c :: rest => ciLeadsWith needle (c :: rest) || ciHasSub needle rest


/-- Split a character list at every newline, keeping empty pieces. -/
def splitOnNl : List Char → List (List Char)
  | [] => [[]]
  | c :: rest =>
    if c == '\n' then [] :: splitOnNl rest
    else
      match splitOnNl rest with
      | p :: ps => (c :: p) :: ps
      | [] => [[c]]


/-- Python `s.split('\n')` (keeps empty pieces). -/
def splitLines (s : String) : List String := (splitOnNl s.data).map String.mk


/-- Python `s.strip()` restricted to the ASCII whitespace the inputs use. -/
def pyTrim (s : String) : String :=
  String.mk (((s.data.dropWhile isSpaceChar).reverse.dropWhile isSpaceChar).reverse)


/-- Python `s.strip(chars)`: remove any of `chars` from both ends. -/
def pyStripChars (s : String) (chars : List Char) : String :=
  String.mk (((s.data.dropWhile (chars.contains ·)).reverse.dropWhile
    (chars.contains ·)).reverse)


/-- Python `s.startswith(p)` on strings. -/
def pyStartsWith (s p : String) : Bool := leadsWith p.data s.data


/-- ASCII lower-casing of one character (the source only lowercases ASCII
headings/urls; Python's Unicode table is not needed). -/
def lowerChar (c : Char) : Char :=
  if 'A' ≤ c && c ≤ 'Z' then Char.ofNat (c.toNat + 32) else c


/-- Python `s.lower()` (ASCII). -/
def pyLower (s : String) : String := String.mk (s.data.map lowerChar)


/-! ## `FirecrawlParser._infer_section_name` (firecrawl_parser.py 425-462) -/

/-- Python regex `\w` on the ASCII range: letters, digits, underscore. -/
def isWordChar (c : Char) : Bool := c.isAlphanum || c == '_'


/-- The fallback branch of `_infer_section_name`:
`re.sub(r'[^\w\s]', '', heading_lower).replace(' ', '_')` — keep word and
whitespace characters, then turn each space into an underscore. -/
def slugifyHeading (s : String) : String :=
  String.mk ((s.data.filter (fun c => isWordChar c || isSpaceChar c)).map
    (fun c => if c == ' ' then '_' else c))


/-- `FirecrawlParser._infer_section_name`: ordered substring tests on the
lowercased heading, first match wins, otherwise the slugified heading. -/
def inferSectionName (heading : String) : String :=
  let h := pyLower heading
  if containsStr h "amenities" || containsStr h "amenity" then "amenities"
  else if containsStr h "room types" || containsStr h "room type" then "room_types"
  else if containsStr h "pricing" || containsStr h "price" || containsStr h "fees" then "pricing"
  else if containsStr h "faq" || containsStr h "question" then "faqs"
  else if containsStr h "about" || containsStr h "overview" then "about"
  else if containsStr h "location" || containsStr h "commute" then "location"
  else if containsStr h "nearby" || containsStr h "surrounding" then "nearby_places"
  else if containsStr h "features" then "features"
  else if containsStr h "bills" && containsStr h "payment" then "bills_and_payments"
  else if containsStr h "bills" then "bills_included"
  else if containsStr h "payment" || containsStr h "policies" then "payment"
  else if containsStr h "cancellation" then "cancellation"
  else if containsStr h "offer" || containsStr h "deal" || containsStr h "promotion" then "offers"
  else if containsStr h "review" || containsStr h "rating" then "reviews"
  else if containsStr h "contact" || containsStr h "support" then "contact"
  else slugifyHeading h


/-- The 21 canonical section identifiers fixed by the spec's glossary. -/
def canonicalTaxonomy : List String :=
  ["hero_media", "property_overview", "address_core_details", "room_types",
   "pricing", "offers_deals", "amenities", "bills_included",
   "location_transport", "nearby_places", "payment_options",
   "booking_process", "cancellation_policies", "trust_badges", "faqs",
   "reviews_ratings", "contact_support", "similar_properties", "highlights",
   "safety_security", "company_info"]


/-- A keyword group: trigger keywords, whether all of them must occur
(`true`) or any one suffices (`false`), and the resulting slug. -/
def matchesGroup (h : String) (g : List String × Bool × String) : Bool :=
  cond g.2.1 (g.1.all (fun k => containsStr h k))
    (g.1.any (fun k => containsStr h k))


/-- The keyword groups of `_infer_section_name` in source order, with the
slug each group yields. -/
def sectionKeywordGroups : List (List String × Bool × String) :=
  [(["amenities", "amenity"], false, "amenities"),
   (["room types", "room type"], false, "room_types"),
   (["pricing", "price", "fees"], false, "pricing"),
   (["faq", "question"], false, "faqs"),
   (["about", "overview"], false, "about"),
   (["location", "commute"], false, "location"),
   (["nearby", "surrounding"], false, "nearby_places"),
   (["features"], false, "features"),
   (["bills", "payment"], true, "bills_and_payments"),
   (["bills"], false, "bills_included"),
   (["payment", "policies"], false, "payment"),
   (["cancellation"], false, "cancellation"),
   (["offer", "deal", "promotion"], false, "offers"),
   (["review", "rating"], false, "reviews"),
   (["contact", "support"], false, "contact")]


/-- First-match-wins interpretation of an ordered keyword-group table,
falling back to the slugified heading. -/
def applyKeywordGroups : List (List String × Bool × String) → String → String
  | [], h => slugifyHeading h
  | g :: gs, h => if matchesGroup h g then g.2.2 else applyKeywordGroups gs h


/-! ## `FirecrawlParser._extract_real_property_name` (firecrawl_parser.py 75-104) -/

/-- `takeUntilSub sep l`: the part of `l` before the first occurrence of
`sep` (the whole of `l` if `sep` never occurs) — Python `l.split(sep)[0]`. -/
def takeUntilSub (sep : List Char) : List Char → List Char
  | [] => []
  | c :: rest => if leadsWith sep (c :: rest) then [] else c :: takeUntilSub sep rest


/-- Capture of `re.match(r'^#+\s*(.+)$', line.strip())` followed by the
`.strip()` applied to the captured group: the heading text after the `#`
markers, trimmed (`none` when the line is not a heading or nothing follows
the markers). -/
def headingCapture (line : String) : Option String :=
  let l := pyTrim line
  if pyStartsWith l "#" then
    let rest := l.data.dropWhile (· == '#')
    if rest.isEmpty then none else some (pyTrim (String.mk rest))
  else none


/-- The length/keyword filter of `_extract_real_property_name`:
`3 < len(candidate) < 80` and none of `Overview`, `Bedroom`, `Amenities`. -/
def isRealNameCandidate (c : String) : Bool :=
  decide (3 < c.length) && decide (c.length < 80) &&
  !containsStr c "Overview" && !containsStr c "Bedroom" && !containsStr c "Amenities"


/-- One step of the heading scan: the qualifying heading captured from a
line, if any. -/
def qualifyingHeading (line : String) : Option String :=
  match headingCapture line with
  | some c => if isRealNameCandidate c then some c else none
  | none => none


/-- `FirecrawlParser._extract_real_property_name`: alt-text-like fallbacks
are replaced by the first qualifying heading of the first 20 lines, else by
the fallback's part before its first `" - "`; `None`/empty fallbacks give
`"Unknown Property"`. -/
def extractRealPropertyName (text : String) (fallback : Option String) : String :=
  match fallback with
  | none => "Unknown Property"
  | some fb =>
    if fb != "" && (containsStr fb " - Bedroom" || containsStr fb " - Amenities" ||
        containsStr fb " - Kitchen") then
      match ((splitLines text).take 20).findSome? qualifyingHeading with
      | some c => c
      | none => pyTrim (String.mk (takeUntilSub (" - ".data) fb.data))
    else if fb != "" then fb else "Unknown Property"


/-- Concrete document used for the spec's property-name example. -/
def c4Text : String :=
  "![image](x.jpg)\n## 1Ten On Whyte - Student Living\nSome body text"


/-- The alt-text-like fallback name of the spec's example. -/
def c4Fallback : String :=
  "1Ten on Whyte, Edmonton - Edmonton, Canada - 1 Bed 1 Bath - Bedroom"


/-! ## `FirecrawlParser._extract_items_from_firecrawl_content`
(firecrawl_parser.py 189-244) -/

/-- Modelled from the spec: `BaseParser._extract_items_from_text`, the
"Pattern 1" bullet extractor (its module `base_parser.py` is not in the
source tree; spec section 4.3, strategy 1: "Leading-dash bullet lines").
Each line whose stripped form starts with `"- "` contributes the trimmed
text after the dash. -/
def extractItemsFromText (content : String) : List String :=
  (splitLines content).filterMap (fun l =>
    let t := pyTrim l
    if pyStartsWith t "- " then
      let item := pyTrim (String.mk (t.data.drop 2))
      if item == "" then none else some item
    else none)


/-- Split a character list at each run of two or more whitespace characters
(Python `re.split(r'\s{2,}', s)`); `fuel` bounds the recursion and is
instantiated with the list length. -/
def splitWs2Go (fuel : Nat) (cur : List Char) (l : List Char) : List (List Char) :=
  match fuel, l with
  | 0, _ => [cur.reverse]
  | _ + 1, [] => [cur.reverse]
  | f + 1, c :: rest =>
    if isSpaceChar c then
      match rest with
      | c2 :: rest2 =>
        if isSpaceChar c2 then
          cur.reverse :: splitWs2Go f [] ((c2 :: rest2).dropWhile isSpaceChar)
        else splitWs2Go f (c :: cur) rest
      | [] => splitWs2Go f (c :: cur) []
    else splitWs2Go f (c :: cur) rest


/-- Python `re.split(r'\s{2,}', s)`. -/
def splitWs2 (l : List Char) : List (List Char) := splitWs2Go l.length [] l


/-- "Pattern 2" of `_extract_items_from_firecrawl_content`: for each line
containing two consecutive spaces, split the stripped line on runs of 2+
whitespace and keep trimmed pieces of length 2-99. -/
def spaceSplitItems (content : String) : List String :=
  (splitLines content).flatMap (fun line =>
    if containsStr line "  " then
      (splitWs2 (pyTrim line).data).filterMap (fun piece =>
        let item := pyTrim (String.mk piece)
        if item != "" && decide (1 < item.length) && decide (item.length < 100)
        then some item else none)
    else [])


/-- "Pattern 3": non-empty stripped lines of length 3-49; contributes the
first 20 of them only when at least 3 exist. -/
def shortLineItems (content : String) : List String :=
  let lines := (splitLines content).filterMap (fun l =>
    let t := pyTrim l
    if t == "" then none else some t)
  let short := lines.filter (fun l => decide (l.length < 50) && decide (2 < l.length))
  if 3 ≤ short.length then short.take 20 else []


/-- Last index of a character in a list (`go` carries the index offset). -/
def lastIdxOfGo (c : Char) : List Char → Nat → Option Nat
  | [], _ => none
  | x :: xs, i =>
    match lastIdxOfGo c xs (i + 1) with
    | some j => some j
    | none => if x == c then some i else none


/-- Last index of a character in a list. -/
def lastIdxOf (c : Char) (l : List Char) : Option Nat := lastIdxOfGo c l 0


/-- Scanner for `re.findall(r'###\s*(.+\?)', content)`: at each `###`
occurrence, `\s*` greedily crosses whitespace (including newlines), and
`(.+\?)` greedily captures up to the last `?` of the line the capture
starts in; `\s*` backtracks by at most the non-newline tail of the
whitespace run when the `?` is the first usable character. -/
def scanFaqCapturesGo (fuel : Nat) (l : List Char) : List String :=
  match fuel, l with
  | 0, _ => []
  | _ + 1, [] => []
  | f + 1, c :: rest =>
    if leadsWith "###".data (c :: rest) then
      let after := (c :: rest).drop 3
      let run := after.takeWhile isSpaceChar
      let tl := after.drop run.length
      let seg := tl.takeWhile (· != '\n')
      let avail := (run.reverse.takeWhile (· != '\n')).length
      match lastIdxOf '?' seg with
      | some j =>
        if 1 ≤ j then
          String.mk (seg.take (j + 1)) :: scanFaqCapturesGo f (tl.drop (j + 1))
        else if 1 ≤ avail then
          String.mk (run.drop (run.length - 1) ++ seg.take 1) ::
            scanFaqCapturesGo f (tl.drop 1)
        else scanFaqCapturesGo f rest
      | none => scanFaqCapturesGo f rest
    else scanFaqCapturesGo f rest


/-- Python `re.findall(r'###\s*(.+\?)', content)`. -/
def faqQuestionCaptures (content : String) : List String :=
  scanFaqCapturesGo content.data.length content.data


/-- One attempted match of `\d+\s*Bed\s*\d*\s*Bath` at the head of `l`:
the matched span, with the remainder of the list. -/
def roomMatchAt (l : List Char) : Option (List Char × List Char) :=
  let d1 := l.takeWhile (·.isDigit)
  if d1.isEmpty then none else
  let r1 := l.drop d1.length
  let w1 := r1.takeWhile isSpaceChar
  let r2 := r1.drop w1.length
  if leadsWith "Bed".data r2 then
    let r3 := r2.drop 3
    let w2 := r3.takeWhile isSpaceChar
    let r4 := r3.drop w2.length
    let d2 := r4.takeWhile (·.isDigit)
    let r5 := r4.drop d2.length
    let w3 := r5.takeWhile isSpaceChar
    let r6 := r5.drop w3.length
    if leadsWith "Bath".data r6 then
      some (d1 ++ w1 ++ "Bed".data ++ w2 ++ d2 ++ w3 ++ "Bath".data, r6.drop 4)
    else none
  else none


/-- Scanner for `re.findall(r'(\d+\s*Bed\s*\d*\s*Bath)', text)`. -/
def scanRoomCapturesGo (fuel : Nat) (l : List Char) : List String :=
  match fuel, l with
  | 0, _ => []
  | _ + 1, [] => []
  | f + 1, c :: rest =>
    match roomMatchAt (c :: rest) with
    | some (m, remaining) => String.mk m :: scanRoomCapturesGo f remaining
    | none => scanRoomCapturesGo f rest


/-- Python `re.findall(r'(\d+\s*Bed\s*\d*\s*Bath)', text)`. -/
def roomPatternCaptures (text : String) : List String :=
  scanRoomCapturesGo text.data.length text.data


/-- First-occurrence deduplication (Python `list(dict.fromkeys(l))`). -/
def dedupFirstAux (seen : List String) : List String → List String
  | [] => []
  | x :: xs =>
    if seen.contains x then dedupFirstAux seen xs
    else x :: dedupFirstAux (x :: seen) xs


/-- Python `list(dict.fromkeys(l))`. -/
def dedupFirst (l : List String) : List String := dedupFirstAux [] l


/-- Python `list(set(l))`: the iteration order of a `set` is unspecified;
modelled as first-occurrence order. -/
def pySetList (l : List String) : List String := dedupFirst l


/-- The final deduplication loop of `_extract_items_from_firecrawl_content`:
strip each item, keep it when non-empty, unseen and longer than 1. -/
def dedupStripMin2Aux (seen : List String) : List String → List String
  | [] => []
  | x :: xs =>
    let c := pyTrim x
    if c != "" && !seen.contains c && decide (1 < c.length) then
      c :: dedupStripMin2Aux (c :: seen) xs
    else dedupStripMin2Aux seen xs


/-- Strip-dedup-minimum-length pass over an item list. -/
def dedupStripMin2 (l : List String) : List String := dedupStripMin2Aux [] l


/-- `FirecrawlParser._extract_items_from_firecrawl_content`: accumulating
item extraction — patterns 2 and 3 run only while fewer than 3 items have
accumulated, patterns 4 (FAQ questions) and 5 (bed/bath) run whenever the
section name matches, then the result is strip-deduplicated and capped at
50. -/
def extractItemsFromFirecrawlContent (content sectionName : String) : List String :=
  let items1 := extractItemsFromText content
  let items2 :=
    if items1.isEmpty || decide (items1.length < 3)
    then items1 ++ spaceSplitItems content else items1
  let items3 :=
    if items2.isEmpty || decide (items2.length < 3)
    then items2 ++ shortLineItems content else items2
  let n := pyLower sectionName
  let items4 :=
    if containsStr n "faq" || containsStr n "question"
    then items3 ++ faqQuestionCaptures content else items3
  let items5 :=
    if containsStr n "room"
    then items4 ++ pySetList (roomPatternCaptures content) else items4
  (dedupStripMin2 items5).take 50


/-- Content whose bullet list already yields 3 items and which also holds a
FAQ-style question line. -/
def c2Content : String := "- Apple\n- Banana\n- Cherry\n### Is parking available?"


/-! ## Section data and `FirecrawlParser._extract_firecrawl_sections`
(firecrawl_parser.py 106-162) with its helpers (164-187, 246-423) -/

/-- The `PreSection` record (`canonical_format.py` is not in the source
tree; its fields are read off the constructor calls in
`firecrawl_parser.py`: `original_name`, `display_name`, `content`,
`items`). -/
structure PreSection where
  original_name : String
  display_name : String
  content : String
  items : List String
deriving DecidableEq, Repr


/-- Python `'\n'.join(l)` and friends. -/
def joinWith (sep : String) : List String → String
  | [] => ""
  | [x] => x
  | x :: xs => x ++ sep ++ joinWith sep xs


/-- The navigation blocklist of `_remove_navigation_noise`. -/
def navNoiseKeywords : List String :=
  ["Menu", "Login", "Sign Up", "Shortlist", "Support", "Download App",
   "Play Store", "App Store", "Follow us", "amber Â©", "Company", "Discover",
   "Share Listing", "Favorites", "Add a Property"]


/-- `FirecrawlParser._remove_navigation_noise`: drop lines shorter than 100
characters that contain a blocklisted keyword. -/
def removeNavigationNoise (text : String) : String :=
  joinWith "\n" ((splitLines text).filter (fun line =>
    !(navNoiseKeywords.any (fun kw => containsStr line kw) &&
      decide (line.length < 100))))


/-- The heading blocklist of `_is_navigation_section`. -/
def navSectionKeywords : List String :=
  ["Nearby Locations", "Similar Properties", "Student Accommodations",
   "Tourist Attractions", "Universities in", "Nearby Places", "Cities",
   "Localities"]


/-- `FirecrawlParser._is_navigation_section`. -/
def isNavigationSection (heading : String) : Bool :=
  navSectionKeywords.any (fun kw => containsStr heading kw)


/-- Heading part of `^##\s+(.+?)$` on one line: exactly two `#` followed by
whitespace; the captured text is the stripped remainder. -/
def headingLineCapture (line : String) : Option String :=
  match line.data with
  | '#' :: '#' :: c :: rest =>
    if isSpaceChar c then some (pyTrim (String.mk (c :: rest))) else none
  | _ => none


/-- The span scan of `re.finditer(r'^##\s+(.+?)$\n(.*?)(?=\n##|\Z)', text,
re.MULTILINE | re.DOTALL)`: each `## ` heading that is not the final line
opens a span running to the next line that starts with `##` (or the end of
the text). -/
def collectSpansGo (fuel : Nat) (lines : List String) : List (String × String) :=
  match fuel, lines with
  | 0, _ => []
  | _ + 1, [] => []
  | f + 1, line :: rest =>
    match headingLineCapture line with
    | some h =>
      if rest.isEmpty then []
      else
        let contentLines := rest.takeWhile (fun l => !pyStartsWith l "##")
        let remaining := rest.drop contentLines.length
        (h, joinWith "\n" contentLines) :: collectSpansGo f remaining
    | none => collectSpansGo f rest


/-- Heading-span scan over the line list (`fuel` = number of lines). -/
def collectSpans (lines : List String) : List (String × String) :=
  collectSpansGo lines.length lines


/-- Strategy 1 of `_extract_firecrawl_sections`: heading-delimited spans,
with navigation headings skipped and spans kept only when the stripped
content is longer than 15 characters. -/
def strategyASections (textCleaned : String) : List PreSection :=
  (collectSpans (splitLines textCleaned)).filterMap (fun hc =>
    if isNavigationSection hc.1 then none
    else
      let content := pyTrim hc.2
      if decide (15 < content.length) then
        let name := inferSectionName hc.1
        some ⟨name, hc.1, content, extractItemsFromFirecrawlContent content name⟩
      else none)


/-- Amenity trigger keywords of `_extract_special_sections`. -/
def amenitiesKeywords : List String :=
  ["Gym", "Study Room", "Courtyard", "Boardroom", "Laundry", "Study Lounge"]


/-- Known multi-word amenity phrases. -/
def knownAmenityPatterns : List String :=
  ["Study Room", "Study Lounge", "On-Site Laundry", "In-Suite Laundry",
   "Laundry Room", "Fitness Center", "Game Room", "Common Room",
   "Meeting Room", "Board Room", "Boardroom"]


/-- Known single-word amenities. -/
def knownAmenitySingles : List String :=
  ["Gym", "Courtyard", "Pool", "Cinema", "Theater", "Lounge", "Kitchen",
   "Parking", "Storage", "Elevator", "WiFi"]


/-- Python `s.replace(pattern, repl, 1)`: replace the first occurrence
only (`pattern` is non-empty for every call site). -/
def replaceFirst (pattern repl : List Char) : List Char → List Char
  | [] => []
  | c :: rest =>
    if leadsWith pattern (c :: rest) then repl ++ (c :: rest).drop pattern.length
    else c :: replaceFirst pattern repl rest


/-- The multi-word pass of the amenities extractor: append each known
phrase found in the line (in table order) and blank out its first
occurrence. -/
def amenityMultiPass : List String → List String × List Char → List String × List Char
  | [], st => st
  | p :: ps, (items, lineCopy) =>
    if hasSub p.data lineCopy then
      amenityMultiPass ps (items ++ [p], replaceFirst p.data [' '] lineCopy)
    else amenityMultiPass ps (items, lineCopy)


/-- Python `s.split()` (split on whitespace runs, dropping empties);
`fuel` is instantiated with the list length. -/
def pySplitWsGo (fuel : Nat) (l : List Char) : List (List Char) :=
  match fuel, l with
  | 0, _ => []
  | _ + 1, [] => []
  | f + 1, c :: rest =>
    if isSpaceChar c then pySplitWsGo f rest
    else
      let w := (c :: rest).takeWhile (fun ch => !isSpaceChar ch)
      w :: pySplitWsGo f ((c :: rest).drop w.length)


/-- Python `s.split()`. -/
def pySplitWs (l : List Char) : List (List Char) := pySplitWsGo l.length l


/-- The single-word pass of the amenities extractor: append each remaining
word that is a known single-word amenity and not already a substring of
the joined items. -/
def amenitySinglesPass : List (List Char) → List String → List String
  | [], items => items
  | w :: ws, items =>
    let word := String.mk w
    if knownAmenitySingles.contains word && !containsStr (joinWith " " items) word
    then amenitySinglesPass ws (items ++ [word])
    else amenitySinglesPass ws items


/-- The per-line amenities extraction of `_extract_special_sections`:
requires at least 3 trigger keywords, builds phrase and single-word items,
deduplicates, filters to length > 2, and requires at least 3 items. -/
def amenityLineSection (line : String) : Option PreSection :=
  if 3 ≤ (amenitiesKeywords.filter (fun kw => containsStr line kw)).length then
    let st := amenityMultiPass knownAmenityPatterns ([], line.data)
    let raw := amenitySinglesPass (pySplitWs st.2) st.1
    let items := (dedupFirst raw).filter (fun i => decide (2 < i.length))
    if 3 ≤ items.length then some ⟨"amenities", "Amenities", line, items⟩
    else none
  else none


/-- The amenities block of `_extract_special_sections` (first qualifying
line wins, at most one section). -/
def amenitySections (text : String) : List PreSection :=
  match (splitLines text).findSome? amenityLineSection with
  | some s => [s]
  | none => []


/-- Bill trigger keywords. -/
def billsPatterns : List String := ["Heat", "Hydro", "Gas", "Internet"]


/-- Known bill names. -/
def knownBills : List String :=
  ["Heat", "Hydro", "Gas", "Internet", "In-Suite Laundry", "Electricity",
   "Water", "WiFi", "Wi-Fi"]


/-- The per-line bills extraction: at least 3 trigger keywords, items are
the known bills present in the line, deduplicated, at least 3 required. -/
def billsLineSection (line : String) : Option PreSection :=
  if 3 ≤ (billsPatterns.filter (fun kw => containsStr line kw)).length then
    let items := dedupFirst (knownBills.filter (fun p => containsStr line p))
    if 3 ≤ items.length then some ⟨"bills_included", "Bills Included", line, items⟩
    else none
  else none


/-- The bills block of `_extract_special_sections`. -/
def billsSections (text : String) : List PreSection :=
  match (splitLines text).findSome? billsLineSection with
  | some s => [s]
  | none => []


/-- First index (with the full suffix handed to the predicate). -/
def findIdxSuffixGo (p : List Char → Bool) : List Char → Nat → Option Nat
  | [], _ => none
  | c :: rest, i => if p (c :: rest) then some i else findIdxSuffixGo p rest (i + 1)


/-- First index whose suffix satisfies `p`. -/
def findIdxSuffix (p : List Char → Bool) (l : List Char) : Option Nat :=
  findIdxSuffixGo p l 0


/-- First index of a case-insensitive occurrence of `needle`. -/
def ciFindIdx (needle hay : List Char) : Option Nat :=
  findIdxSuffix (fun suf => ciLeadsWith needle suf) hay


/-- First index of a `\n##[^#]` occurrence. -/
def idxNlHashHash (l : List Char) : Option Nat :=
  findIdxSuffix (fun suf =>
    match suf with
    | '\n' :: '#' :: '#' :: c :: _ => c != '#'
    | _ => false) l


/-- The positions where `$` can match without `re.MULTILINE`: the end of
the string, or just before a final newline. -/
def endDollarPos (l : List Char) : Nat :=
  match l.getLast? with
  | some '\n' => l.length - 1
  | _ => l.length


/-- Earliest stop position for a lazy `(.*?)(?=...)` capture: the minimum
over the terminator positions, with `$` always available. -/
def lazyStopPos (l : List Char) (withNlHashHash : Bool) (ciPhrases : List String) : Nat :=
  let cands :=
    (if withNlHashHash then (idxNlHashHash l).toList else []) ++
    ciPhrases.filterMap (fun ph => ciFindIdx ph.data l) ++ [endDollarPos l]
  cands.foldl min (endDollarPos l)


/-- Terminator phrases of the FAQ region regex. -/
def faqTermPhrases : List String :=
  ["Show more", "View less", "Nearby Places", "Student Accommodations",
   "Universities in"]


/-- findall `^(.+\?)$` with `re.MULTILINE`: whole lines ending in `?` with
at least one character before it. -/
def wholeLineQuestions (content : String) : List String :=
  (splitLines content).filterMap (fun l =>
    match l.data.getLast? with
    | some '?' => if 2 ≤ l.length then some l else none
    | _ => none)


/-- The FAQ block of `_extract_special_sections`: the region after the
first case-insensitive `Frequently Asked Questions` up to the earliest
terminator, with `###`-style and whole-line question captures,
deduplicated. -/
def faqSpecialSection (text : String) : Option PreSection :=
  match ciFindIdx "Frequently Asked Questions".data text.data with
  | none => none
  | some i =>
    let after := text.data.drop (i + "Frequently Asked Questions".data.length)
    let stop := lazyStopPos after true faqTermPhrases
    let content := pyTrim (String.mk (after.take stop))
    let questions :=
      dedupFirst (faqQuestionCaptures content ++ wholeLineQuestions content)
    if questions.isEmpty then none
    else some ⟨"faqs", "FAQs", content, questions⟩


/-- Context extraction for one room type:
`re.search(re.escape(room) + r'.*?(?:\n\n|\n[A-Z]|$)', text, re.DOTALL)` —
from the first occurrence of the room string, lazily up to (and including)
the earliest `\n\n`, newline-plus-uppercase, or `$`. -/
def roomContext (room : String) (text : String) : Option String :=
  match findIdxSuffix (fun suf => leadsWith room.data suf) text.data with
  | none => none
  | some i =>
    let after := text.data.drop (i + room.data.length)
    let candNlNl := (findIdxSuffix (fun suf =>
      match suf with
      | '\n' :: '\n' :: _ => true
      | _ => false) after).map (fun j => (j, 2))
    let candNlUpper := (findIdxSuffix (fun suf =>
      match suf with
      | '\n' :: c :: _ => 'A' ≤ c && c ≤ 'Z'
      | _ => false) after).map (fun j => (j, 2))
    let cands := candNlNl.toList ++ candNlUpper.toList ++ [(endDollarPos after, 0)]
    let best := cands.foldl (fun b c => if c.1 < b.1 then c else b)
      (endDollarPos after, 0)
    some (String.mk (room.data ++ after.take (best.1 + best.2)))


/-- The room-types block of `_extract_special_sections`: all bed/bath
pattern captures, set-deduplicated, with up to five context snippets
joined as the content. -/
def roomTypesSections (text : String) : List PreSection :=
  let roomTypes := roomPatternCaptures text
  if roomTypes.isEmpty then []
  else
    let uniqueRooms := pySetList roomTypes
    let roomContent := (uniqueRooms.take 5).filterMap (fun r => roomContext r text)
    [⟨"room_types", "Room Types", joinWith "\n\n" roomContent, uniqueRooms⟩]


/-- A `<head phrase>\s*\((\d+)\)` match attempt at the start of `suf`
(case-insensitive phrase): the consumed length, if it matches. -/
def policyHeadMatchAt (phrase : List Char) (suf : List Char) : Option Nat :=
  if ciLeadsWith phrase suf then
    let r1 := suf.drop phrase.length
    let w := r1.takeWhile isSpaceChar
    let r2 := r1.drop w.length
    match r2 with
    | '(' :: r3 =>
      let d := r3.takeWhile (·.isDigit)
      if d.isEmpty then none
      else
        match r3.drop d.length with
        | ')' :: _ => some (phrase.length + w.length + 1 + d.length + 1)
        | _ => none
    | _ => none
  else none


/-- Scan for the first `<phrase>\s*\((\d+)\)` match: start index and
consumed length. -/
def findPolicyHeadGo (phrase : List Char) : Nat → List Char → Nat → Option (Nat × Nat)
  | 0, _, _ => none
  | _ + 1, [], _ => none
  | f + 1, c :: rest, i =>
    match policyHeadMatchAt phrase (c :: rest) with
    | some consumed => some (i, consumed)
    | none => findPolicyHeadGo phrase f rest (i + 1)


/-- First `<phrase>\s*\((\d+)\)` match in `l`. -/
def findPolicyHead (phrase : List Char) (l : List Char) : Option (Nat × Nat) :=
  findPolicyHeadGo phrase l.length l 0


/-- findall `^-\s*(.+?)$` with `re.MULTILINE`: for every line starting
with `-`, the rest of the line after the leading whitespace run (the run
backtracks by one character when the line holds nothing else). -/
def dashLineCaptures (content : String) : List String :=
  (splitLines content).filterMap (fun l =>
    match l.data with
    | '-' :: r =>
      if r.isEmpty then none
      else some (String.mk (r.drop (min (r.takeWhile isSpaceChar).length (r.length - 1))))
    | _ => none)


/-- A labeled policy block (`Payment Policies (N)` / `Cancellation
Policies (N)`): region up to the earliest `\n##[^#]`, terminator word, or
`$`, with leading-dash items. -/
def policyBlockSection (text : String) (phrase term name display : String) :
    Option PreSection :=
  match findPolicyHead phrase.data text.data with
  | none => none
  | some ic =>
    let after := text.data.drop (ic.1 + ic.2)
    let stop := lazyStopPos after true [term]
    let content := pyTrim (String.mk (after.take stop))
    let items := dashLineCaptures content
    if items.isEmpty then none
    else some ⟨name, display, content, items⟩


/-- An `##\s*Offers\s*\((\d+)\)` match attempt at the start of `suf`. -/
def offersHeadMatchAt (suf : List Char) : Option Nat :=
  match suf with
  | '#' :: '#' :: r0 =>
    let w0 := r0.takeWhile isSpaceChar
    let r1 := r0.drop w0.length
    if ciLeadsWith "Offers".data r1 then
      let r2 := r1.drop 6
      let w := r2.takeWhile isSpaceChar
      let r3 := r2.drop w.length
      match r3 with
      | '(' :: r4 =>
        let d := r4.takeWhile (·.isDigit)
        if d.isEmpty then none
        else
          match r4.drop d.length with
          | ')' :: _ => some (2 + w0.length + 6 + w.length + 1 + d.length + 1)
          | _ => none
      | _ => none
    else none
  | _ => none


/-- Scan for the first `##\s*Offers\s*\((\d+)\)` match. -/
def findOffersHeadGo : Nat → List Char → Nat → Option (Nat × Nat)
  | 0, _, _ => none
  | _ + 1, [], _ => none
  | f + 1, c :: rest, i =>
    match offersHeadMatchAt (c :: rest) with
    | some consumed => some (i, consumed)
    | none => findOffersHeadGo f rest (i + 1)


/-- The offers block of `_extract_special_sections`. -/
def offersSection (text : String) : Option PreSection :=
  match findOffersHeadGo text.data.length text.data 0 with
  | none => none
  | some ic =>
    let after := text.data.drop (ic.1 + ic.2)
    let stop := lazyStopPos after true []
    let content := pyTrim (String.mk (after.take stop))
    let items := dashLineCaptures content
    if items.isEmpty then none
    else some ⟨"offers", "Offers", content, items⟩


/-- `FirecrawlParser._extract_special_sections` (firecrawl_parser.py
246-423): amenities, bills, FAQs, room types, payment, cancellation and
offers blocks, in source order. -/
def extractSpecialSections (text : String) : List PreSection :=
  amenitySections text ++ billsSections text ++
  (faqSpecialSection text).toList ++ roomTypesSections text ++
  (policyBlockSection text "Payment Policies" "Cancellation" "payment"
    "Payment Policies").toList ++
  (policyBlockSection text "Cancellation Policies" "Frequently" "cancellation"
    "Cancellation Policies").toList ++
  (offersSection text).toList


/-- Python `set.add` on the insertion-ordered model of the `seen` set. -/
def pySeenAdd (seen : List String) (x : String) : List String :=
  if seen.contains x then seen else seen ++ [x]


/-- `len([s for s in unique_sections if s.original_name == name][0].items)`
— the item count of the current winner for `name` (the `none` branch is
unreachable under the loop's invariant; Python would raise `IndexError`
there). -/
def currentItemsLen (uniq : List PreSection) (name : String) : Nat :=
  match (uniq.filter (fun t => t.original_name == name)).head? with
  | some t => t.items.length
  | none => 0


/-- One iteration of the dedup-by-name loop of
`_extract_firecrawl_sections` (lines 149-161): first candidate for a name
is kept; a later candidate replaces it only when it has strictly more
items. -/
def mergeStep (st : List String × List PreSection) (s : PreSection) :
    List String × List PreSection :=
  if st.1.contains s.original_name then
    if currentItemsLen st.2 s.original_name < s.items.length then
      (pySeenAdd st.1 s.original_name,
       (st.2.filter (fun t => !(t.original_name == s.original_name))) ++ [s])
    else st
  else (pySeenAdd st.1 s.original_name, st.2 ++ [s])


/-- The whole dedup-by-name loop. -/
def mergeSections (l : List PreSection) : List PreSection :=
  (l.foldl mergeStep ([], [])).2


/-- `FirecrawlParser._extract_firecrawl_sections`: noise removal, heading
spans, special sections, then the dedup-by-name merge. -/
def extractFirecrawlSections (text : String) : List PreSection :=
  let cleaned := removeNavigationNoise text
  mergeSections (strategyASections cleaned ++ extractSpecialSections cleaned)


/-! ## Characterization of the dedup-by-name merge loop -/

/-- Sections of a candidate list carrying a given name. -/
def filterByName (n : String) (l : List PreSection) : List PreSection :=
  l.filter (fun t => t.original_name == n)


/-- The replacement rule of the merge loop: a later candidate wins only
with strictly more items. -/
def replaceIfMore (w s : PreSection) : PreSection :=
  if w.items.length < s.items.length then s else w


/-- Expected winner list from a current winner list (length at most 1) and
the remaining candidates for one name. -/
def winnersFrom (ws cs : List PreSection) : List PreSection :=
  match ws with
  | w :: _ => [cs.foldl replaceIfMore w]
  | [] =>
    match cs with
    | [] => []
    | c :: cs' => [cs'.foldl replaceIfMore c]


/-- Loop invariant of the merge: `seen` holds exactly the names present in
`uniq`, and `uniq` holds at most one section per name. -/
def MergeInv (st : List String × List PreSection) : Prop :=
  ∀ m, (st.1.contains m = true ↔ filterByName m st.2 ≠ []) ∧
    (filterByName m st.2).length ≤ 1


/-- All strings the amenities extractor can produce. -/
def amenityVocabulary : List String := knownAmenityPatterns ++ knownAmenitySingles


/-! ## A model of Python/JSON values for the UI backend parsers
(`ui/backend/parsers.py`) and the LLM extractor result dictionaries -/

/-- JSON-style values as handled by `parsers.py` (numbers are modelled as
integers: the source never computes with them, it only tests truthiness
and stringifies). -/
inductive JVal where
  | s (v : String)
  | i (v : Int)
  | b (v : Bool)
  | null
  | arr (xs : List JVal)
  | obj (fields : List (String × JVal))


/-- Python truthiness. -/
def jTruthy : JVal → Bool
  | .s v => v != ""
  | .i v => v != 0
  | .b v => v
  | .null => false
  | .arr xs => !xs.isEmpty
  | .obj fs => !fs.isEmpty


/-- `d.get(key)` on an object's field list. -/
def jGet (fields : List (String × JVal)) (key : String) : Option JVal :=
  (fields.find? (fun kv => kv.1 == key)).map (fun kv => kv.2)


/-- `d.get(key)` keeping only truthy values (the form used in the
source's `a.get(k1) or a.get(k2) or ...` chains). -/
def jGetTruthy (fields : List (String × JVal)) (key : String) : Option JVal :=
  match jGet fields key with
  | some v => if jTruthy v then some v else none
  | none => none


/-- First truthy value among an ordered list of key aliases. -/
def firstTruthy (fields : List (String × JVal)) (keys : List String) : Option JVal :=
  keys.findSome? (jGetTruthy fields)


mutual
/-- Python `repr` of a value (string quoting/escaping simplified to plain
single quotes, which covers every value the claims touch). -/
def pyReprVal : JVal → String
  | .s v => "'" ++ v ++ "'"
  | .i v => toString v
  | .b v => cond v "True" "False"
  | .null => "None"
  | .arr xs => "[" ++ joinWith ", " (pyReprList xs) ++ "]"
  | .obj fs => "\x7b" ++ joinWith ", " (pyReprFields fs) ++ "\x7d"

/-- `repr` of array elements. -/
def pyReprList : List JVal → List String
  | [] => []
  | x :: xs => pyReprVal x :: pyReprList xs

/-- `repr` of object fields. -/
def pyReprFields : List (String × JVal) → List String
  | [] => []
  | kv :: rest => ("'" ++ kv.1 ++ "': " ++ pyReprVal kv.2) :: pyReprFields rest
end

/-- Python `str` of a value (`str` of a string is the string itself;
containers fall back to `repr`). -/
def pyStrVal : JVal → String
  | .s v => v
  | v => pyReprVal v


/-- A part of the structured-location join: `str` of a present truthy
value. -/
def optPart (o : Option JVal) : List String :=
  match o with
  | some v => [pyStrVal v]
  | none => []


/-- Python `a or b` over already-truthiness-filtered lookups. -/
def orTruthy (a b : Option JVal) : Option JVal :=
  match a with
  | some v => some v
  | none => b


/-- The sequential appends of `parse_json_to_property_data` lines 68-85:
name, address, street, city, state-or-region, country, postal-or-zip. -/
def locationParts (fs : List (String × JVal)) : List String :=
  optPart (jGetTruthy fs "name") ++
  optPart (jGetTruthy fs "address") ++
  optPart (jGetTruthy fs "street") ++
  optPart (jGetTruthy fs "city") ++
  optPart (orTruthy (jGetTruthy fs "state") (jGetTruthy fs "region")) ++
  optPart (jGetTruthy fs "country") ++
  optPart (orTruthy (jGetTruthy fs "postal_code") (jGetTruthy fs "zip_code"))


/-- The location resolution of `parse_json_to_property_data` lines 64-104:
strings pass through; objects join their fields, then fall back to
formatted-address/display-name/label/lat+lng, then to the stringified
object; falsy data gives no location; any other truthy value is
stringified. -/
def resolveLocationData (ld : JVal) : Option String :=
  if !jTruthy ld then none
  else
    match ld with
    | .s v => some v
    | .obj fs =>
      let parts := locationParts fs
      if !parts.isEmpty then some (joinWith ", " parts)
      else
        match jGetTruthy fs "formatted_address" with
        | some v => some (pyStrVal v)
        | none =>
          match jGetTruthy fs "display_name" with
          | some v => some (pyStrVal v)
          | none =>
            match jGetTruthy fs "label" with
            | some v => some (pyStrVal v)
            | none =>
              match jGetTruthy fs "lat", jGetTruthy fs "lng" with
              | some la, some ln => some (pyStrVal la ++ ", " ++ pyStrVal ln)
              | _, _ => some (pyStrVal ld)
    | v => some (pyStrVal v)


/-- The spec's reading of the join: a fixed preference-order table of
key-alias slots, each contributing its first truthy value. -/
def locationFieldOrder : List (List String) :=
  [["name"], ["address"], ["street"], ["city"], ["state", "region"],
   ["country"], ["postal_code", "zip_code"]]


/-- Table-driven variant of `locationParts`, following the spec's words. -/
def locationPartsSpec (fs : List (String × JVal)) : List String :=
  locationFieldOrder.filterMap (fun keys =>
    (keys.findSome? (jGetTruthy fs)).map pyStrVal)


/-! ## `SimpleLLMExtractor.extract` and `_empty_result`
(simple_extractor.py 29-73, 170-193) -/

/-- `SimpleLLMExtractor._empty_result`: the literal dictionary the
extractor returns for short or failing inputs (note: it has no
`confidence_score` key). -/
def emptyResult (propertyName url : String) : JVal :=
  .obj [("property_name", .s propertyName), ("url", .s url),
        ("sections_count", .i 0), ("total_items", .i 0),
        ("total_word_count", .i 0), ("sections", .arr []),
        ("metrics", .obj
          [("amenities_count", .i 0), ("room_types_count", .i 0),
           ("faqs_count", .i 0), ("bills_included_count", .i 0),
           ("payment_options_count", .i 0), ("universities_mentioned", .i 0),
           ("pois_count", .i 0), ("reviews_count", .i 0),
           ("trust_badges_count", .i 0), ("safety_features_count", .i 0)]),
        ("images_count", .i 0), ("videos_count", .i 0)]


/-- `SimpleLLMExtractor.extract` with the LLM round-trip abstracted as a
function argument (`none` models any raised exception or unparsable
response, both of which the `except` clause maps to the empty result);
the short-text guard runs before the LLM is consulted. -/
def simpleExtract (llm : String → Option JVal) (text propertyName url : String) : JVal :=
  if text == "" || decide (text.length < 50) then emptyResult propertyName url
  else
    match llm text with
    | some result => result
    | none => emptyResult propertyName url


/-- Key lookup on an object-shaped result. -/
def topLookup (v : JVal) (key : String) : Option JVal :=
  match v with
  | .obj fs => jGet fs key
  | _ => none


/-- A concrete 20-character input. -/
def c8Text : String := "only twenty chars ab"


/-! ## URL resolution of `parse_markdown_to_property_data`
(ui/backend/parsers.py 456-525) and `parse_text_to_property_data`
(339-348) -/

/-- The character class `[^\s\n\)"\'<>]` of the markdown URL patterns. -/
def urlStopChar (c : Char) : Bool :=
  isSpaceChar c || c == ')' || c == '"' || c == '\'' || c == '<' || c == '>'


/-- Python `s.split(c)[0]`. -/
def takeUntilChar (c : Char) (l : List Char) : List Char := l.takeWhile (· != c)


/-- Scanner for `re.finditer(r'href=["\']([^"\']+)["\'], line)`. -/
def scanHrefGo (fuel : Nat) (l : List Char) : List String :=
  match fuel, l with
  | 0, _ => []
  | _ + 1, [] => []
  | f + 1, c :: rest =>
    if leadsWith "href=".data (c :: rest) then
      match (c :: rest).drop 5 with
      | q :: r2 =>
        if q == '"' || q == '\'' then
          let content := r2.takeWhile (fun ch => ch != '"' && ch != '\'')
          match r2.drop content.length with
          | _ :: r3 =>
            if content.isEmpty then scanHrefGo f rest
            else String.mk content :: scanHrefGo f r3
          | [] => scanHrefGo f rest
        else scanHrefGo f rest
      | [] => scanHrefGo f rest
    else scanHrefGo f rest


/-- Scanner for `re.finditer(r'\[([^\]]+)\]\(([^\)]+)\)', line)` keeping
the second (URL) group. -/
def scanMdLinkGo (fuel : Nat) (l : List Char) : List String :=
  match fuel, l with
  | 0, _ => []
  | _ + 1, [] => []
  | f + 1, c :: rest =>
    if c == '[' then
      let txt := rest.takeWhile (· != ']')
      if txt.isEmpty then scanMdLinkGo f rest
      else
        match rest.drop txt.length with
        | ']' :: '(' :: r2 =>
          let u := r2.takeWhile (· != ')')
          if u.isEmpty then scanMdLinkGo f rest
          else
            match r2.drop u.length with
            | ')' :: r3 => String.mk u :: scanMdLinkGo f r3
            | _ => scanMdLinkGo f rest
        | _ => scanMdLinkGo f rest
    else scanMdLinkGo f rest


/-- Scanner for `re.finditer(r'https?://[^\s\n\)"\'<>]+', line)`. -/
def scanPlainUrlGo (fuel : Nat) (l : List Char) : List String :=
  match fuel, l with
  | 0, _ => []
  | _ + 1, [] => []
  | f + 1, c :: rest =>
    let schemeLen :=
      if leadsWith "https://".data (c :: rest) then some 8
      else if leadsWith "http://".data (c :: rest) then some 7
      else none
    match schemeLen with
    | some n =>
      let run := (c :: rest).takeWhile (fun ch => !urlStopChar ch)
      if n < run.length then String.mk run :: scanPlainUrlGo f ((c :: rest).drop run.length)
      else scanPlainUrlGo f rest
    | none => scanPlainUrlGo f rest


/-- Scanner for `re.finditer(r'www\.[^\s\n\)"\'<>]+', line)`. -/
def scanWwwGo (fuel : Nat) (l : List Char) : List String :=
  match fuel, l with
  | 0, _ => []
  | _ + 1, [] => []
  | f + 1, c :: rest =>
    if leadsWith "www.".data (c :: rest) then
      let run := (c :: rest).takeWhile (fun ch => !urlStopChar ch)
      if 4 < run.length then String.mk run :: scanWwwGo f ((c :: rest).drop run.length)
      else scanWwwGo f rest
    else scanWwwGo f rest


/-- The asset/social/CDN skip keywords of the markdown URL resolver. -/
def mdSkipKeywords : List String :=
  ["logo", "icon", "cdn", "facebook", "twitter", "instagram", "linkedin",
   "youtube", "pinterest", "svg", "png", "jpg", "jpeg", "webp", "gif",
   "favicon", "apple-touch", "stylesheet", "script", "font", "assets",
   "files"]


/-- The preferred listing/domain keywords. -/
def mdPreferKeywords : List String :=
  ["property", "accommodation", "student", "booking", "sterling", "iq",
   "universityliving.com", "amberstudent.com", "unilodgers.com",
   "student.com", "casita.com"]


/-- Image-extension penalties. -/
def mdExtPenalties : List String :=
  [".svg", ".png", ".jpg", ".jpeg", ".gif", ".webp", ".ico"]


/-- One candidate's cleaning and scoring (parsers.py 485-509): strip
wrapping punctuation, drop query/fragment, normalize the scheme, discard
relative URLs and any URL containing a skip keyword, then score. -/
def cleanScoreCandidate (basePri : Int) (raw : String) : Option (String × Int) :=
  let u0 := pyStripChars raw ['(', ')', '[', ']', '"', '\'']
  let u1 := String.mk (takeUntilChar '?' u0.data)
  let u2 := String.mk (takeUntilChar '#' u1.data)
  match (if pyStartsWith u2 "http" then some u2
         else if pyStartsWith u2 "www." then some ("https://" ++ u2)
         else if containsStr u2 "://" then some u2 else none) with
  | none => none
  | some u =>
    let lo := pyLower u
    if mdSkipKeywords.any (fun k => containsStr lo k) then none
    else
      some (u, basePri +
        (if mdPreferKeywords.any (fun k => containsStr lo k) then 10 else 0) +
        (if containsStr lo "/property" || containsStr lo "/accommodation" then 5 else 0) +
        (if mdExtPenalties.any (fun k => containsStr lo k) then -10 else 0) +
        (if containsStr lo "cdn" || containsStr lo "assets" || containsStr lo "files"
         then -8 else 0))


/-- Candidates of one line, in the source's pattern-priority order. -/
def lineUrlCandidates (line : String) : List (String × Int) :=
  (scanHrefGo line.data.length line.data).filterMap (cleanScoreCandidate 3) ++
  (scanMdLinkGo line.data.length line.data).filterMap (cleanScoreCandidate 2) ++
  (scanPlainUrlGo line.data.length line.data).filterMap (cleanScoreCandidate 1) ++
  (scanWwwGo line.data.length line.data).filterMap (cleanScoreCandidate 0)


/-- All candidates of a markdown document. -/
def mdUrlCandidates (markdown : String) : List (String × Int) :=
  (splitLines markdown).flatMap lineUrlCandidates


/-- Stable descending sort by priority followed by taking the head:
equivalently, the first candidate of maximal priority. -/
def selectBestUrl : List (String × Int) → Option String
  | [] => none
  | c :: cs => some (cs.foldl (fun best x => if best.2 < x.2 then x else best) c).1


/-- Keywords of the breadcrumb fallback regex. -/
def bcKeywords : List String :=
  ["property", "accommodation", "student", "booking", "universityliving",
   "amberstudent"]


/-- Extensions excluded by the breadcrumb fallback. -/
def bcExts : List String := [".svg", ".png", ".jpg", ".jpeg", ".gif", ".webp"]


/-- A breadcrumb-regex match attempt at the start of `suf`
(`https?://[^\s\n\)"\'<>]+(?:property|...)[^\s\n\)"\'<>]*`, IGNORECASE):
the scheme, then a URL-character run holding a keyword at offset at least
one past the scheme. -/
def bcMatchAt (suf : List Char) : Option (List Char) :=
  let schemeLen :=
    if ciLeadsWith "https://".data suf then some 8
    else if ciLeadsWith "http://".data suf then some 7
    else none
  match schemeLen with
  | none => none
  | some n =>
    let run := suf.takeWhile (fun ch => !urlStopChar ch)
    if run.length ≤ n then none
    else if bcKeywords.any (fun k => ciHasSub k.data ((run.drop n).drop 1))
    then some run else none


/-- First breadcrumb match in a line. -/
def bcScanLineGo (fuel : Nat) (l : List Char) : Option (List Char) :=
  match fuel, l with
  | 0, _ => none
  | _ + 1, [] => none
  | f + 1, c :: rest =>
    match bcMatchAt (c :: rest) with
    | some m => some m
    | none => bcScanLineGo f rest


/-- The breadcrumb fallback scan over the first 200 lines (parsers.py
517-525): the first line whose breadcrumb match carries no image
extension wins. -/
def mdBreadcrumbScan (lines : List String) : Option String :=
  (lines.take 200).findSome? (fun line =>
    match bcScanLineGo line.data.length line.data with
    | some cand =>
      let candStr := String.mk cand
      if bcExts.any (fun e => containsStr (pyLower candStr) e) then none
      else some candStr
    | none => none)


/-- Trigger words of the fallback condition (parsers.py 517). -/
def fallbackTriggerWords : List String :=
  ["svg", "png", "jpg", "jpeg", "gif", "cdn", "files"]


/-- The URL resolution of `parse_markdown_to_property_data`: candidate
collection and scoring, best-candidate selection, then the breadcrumb
fallback when the result is still the default or asset-like. -/
def mdResolveUrl (markdown defaultUrl : String) : String :=
  let lines := splitLines markdown
  let url := (selectBestUrl (mdUrlCandidates markdown)).getD defaultUrl
  if url == defaultUrl ||
      fallbackTriggerWords.any (fun k => containsStr (pyLower url) k) then
    match mdBreadcrumbScan lines with
    | some c => c
    | none => url
  else url


/-- A `https?://[^\s\n]+|www\.[^\s\n]+` match attempt (IGNORECASE) at the
start of `suf`, as used by the plain-text URL search. -/
def textUrlMatchAt (suf : List Char) : Option (List Char) :=
  let run := suf.takeWhile (fun ch => !isSpaceChar ch)
  if ciLeadsWith "https://".data suf then
    if 8 < run.length then some run else none
  else if ciLeadsWith "http://".data suf then
    if 7 < run.length then some run else none
  else if ciLeadsWith "www.".data suf then
    if 4 < run.length then some run else none
  else none


/-- First text-pattern URL match in a line (`re.search`). -/
def textScanUrlGo (fuel : Nat) (l : List Char) : Option (List Char) :=
  match fuel, l with
  | 0, _ => none
  | _ + 1, [] => none
  | f + 1, c :: rest =>
    match textUrlMatchAt (c :: rest) with
    | some m => some m
    | none => textScanUrlGo f rest


/-- The URL resolution of `parse_text_to_property_data` (parsers.py
339-348): the first URL-looking substring of the document wins, with
`https://` prepended when it does not start with `http`. -/
def textResolveUrl (text defaultUrl : String) : String :=
  match (splitLines text).findSome? (fun line =>
      textScanUrlGo line.data.length line.data) with
  | some m =>
    let u := String.mk m
    if !pyStartsWith u "http" then "https://" ++ u else u
  | none => defaultUrl


/-- The two-URL document of the spec's URL-resolution example, asset URL
first. -/
def c5DocA : String :=
  "https://cdn.example.com/logo.svg\nhttps://example.com/property/123"


/-- The same document with the listing URL first. -/
def c5DocB : String :=
  "https://example.com/property/123\nhttps://cdn.example.com/logo.svg"


/-! ## A model of `json.loads` (used by `parse_input_to_property_data`) -/

/-- JSON inter-token whitespace. -/
def skipWsJ (l : List Char) : List Char :=
  l.dropWhile (fun c => c == ' ' || c == '\t' || c == '\n' || c == '\x0d')


/-- Hex digit value. -/
def hexVal (c : Char) : Option Nat :=
  if '0' ≤ c && c ≤ '9' then some (c.toNat - 48)
  else if 'a' ≤ c && c ≤ 'f' then some (c.toNat - 87)
  else if 'A' ≤ c && c ≤ 'F' then some (c.toNat - 55)
  else none


/-- JSON string body after the opening quote (standard escapes; `\uXXXX`
is decoded as a single code point). -/
def jpStringGo (fuel : Nat) (acc : List Char) (l : List Char) :
    Option (String × List Char) :=
  match fuel, l with
  | 0, _ => none
  | _ + 1, [] => none
  | f + 1, c :: rest =>
    if c == '"' then some (String.mk acc.reverse, rest)
    else if c == '\\' then
      match rest with
      | e :: r2 =>
        if e == '"' then jpStringGo f ('"' :: acc) r2
        else if e == '\\' then jpStringGo f ('\\' :: acc) r2
        else if e == '/' then jpStringGo f ('/' :: acc) r2
        else if e == 'n' then jpStringGo f ('\n' :: acc) r2
        else if e == 't' then jpStringGo f ('\t' :: acc) r2
        else if e == 'r' then jpStringGo f ('\x0d' :: acc) r2
        else if e == 'b' then jpStringGo f ('\x08' :: acc) r2
        else if e == 'f' then jpStringGo f ('\x0c' :: acc) r2
        else if e == 'u' then
          match r2 with
          | a :: b :: c2 :: d :: r3 =>
            match hexVal a, hexVal b, hexVal c2, hexVal d with
            | some va, some vb, some vc, some vd =>
              jpStringGo f (Char.ofNat (va * 4096 + vb * 256 + vc * 16 + vd) :: acc) r3
            | _, _, _, _ => none
          | _ => none
        else none
      | [] => none
    else if c.toNat < 32 then none
    else jpStringGo f (c :: acc) rest


/-- JSON number: an integer part, with any fraction/exponent consumed and
discarded (the source only tests truthiness of numbers and stringifies
them, never computes; fractional values are modelled by their integer
part). -/
def jpNumber (l : List Char) : Option (JVal × List Char) :=
  let (neg, l1) := match l with
    | '-' :: r => (true, r)
    | _ => (false, l)
  let ds := l1.takeWhile (·.isDigit)
  if ds.isEmpty then none
  else
    let r2 := l1.drop ds.length
    let r3 := match r2 with
      | '.' :: r => r.dropWhile (·.isDigit)
      | _ => r2
    let r4 := match r3 with
      | 'e' :: r => (match r with
        | '+' :: r' => r'.dropWhile (·.isDigit)
        | '-' :: r' => r'.dropWhile (·.isDigit)
        | _ => r.dropWhile (·.isDigit))
      | 'E' :: r => (match r with
        | '+' :: r' => r'.dropWhile (·.isDigit)
        | '-' :: r' => r'.dropWhile (·.isDigit)
        | _ => r.dropWhile (·.isDigit))
      | _ => r3
    let n : Nat := ds.foldl (fun a c => a * 10 + (c.toNat - 48)) 0
    some (.i (if neg then -(n : Int) else (n : Int)), r4)


mutual
/-- One JSON value. -/
def jpValue (fuel : Nat) (l : List Char) : Option (JVal × List Char) :=
  match fuel with
  | 0 => none
  | f + 1 =>
    match skipWsJ l with
    | [] => none
    | c :: rest =>
      if c == '\x7b' then jpObjMembers f rest []
      else if c == '[' then jpArrElems f rest []
      else if c == '"' then
        (jpStringGo (rest.length + 1) [] rest).map (fun p => (JVal.s p.1, p.2))
      else if leadsWith "true".data (c :: rest) then some (.b true, (c :: rest).drop 4)
      else if leadsWith "false".data (c :: rest) then some (.b false, (c :: rest).drop 5)
      else if leadsWith "null".data (c :: rest) then some (.null, (c :: rest).drop 4)
      else if c == '-' || c.isDigit then jpNumber (c :: rest)
      else none

/-- Object members after `{` (or after a member separator). -/
def jpObjMembers (fuel : Nat) (l : List Char) (acc : List (String × JVal)) :
    Option (JVal × List Char) :=
  match fuel with
  | 0 => none
  | f + 1 =>
    match skipWsJ l with
    | '\x7d' :: rest => if acc.isEmpty then some (.obj [], rest) else none
    | '"' :: rest =>
      match jpStringGo (rest.length + 1) [] rest with
      | none => none
      | some (k, r1) =>
        match skipWsJ r1 with
        | ':' :: r2 =>
          match jpValue f r2 with
          | none => none
          | some (v, r3) =>
            match skipWsJ r3 with
            | ',' :: r4 => jpObjMembers f r4 (acc ++ [(k, v)])
            | '\x7d' :: r4 => some (.obj (acc ++ [(k, v)]), r4)
            | _ => none
        | _ => none
    | _ => none

/-- Array elements after `[` (or after an element separator). -/
def jpArrElems (fuel : Nat) (l : List Char) (acc : List JVal) :
    Option (JVal × List Char) :=
  match fuel with
  | 0 => none
  | f + 1 =>
    match skipWsJ l with
    | ']' :: rest => if acc.isEmpty then some (.arr [], rest) else none
    | l' =>
      match jpValue f l' with
      | none => none
      | some (v, r1) =>
        match skipWsJ r1 with
        | ',' :: r2 => jpArrElems f r2 (acc ++ [v])
        | ']' :: r2 => some (.arr (acc ++ [v]), r2)
        | _ => none
end

/-- `json.loads`: one value, with only whitespace allowed afterwards. -/
def jsonParse (s : String) : Option JVal :=
  match jpValue (s.data.length + 1) s.data with
  | some (v, rest) => if (skipWsJ rest).isEmpty then some v else none
  | none => none


/-! ## `parse_json_to_property_data` (ui/backend/parsers.py 20-297) -/

mutual
/-- Python `==` on values (dict equality is modelled order-sensitively;
the source only compares prices, which are scalars). -/
def jEq : JVal → JVal → Bool
  | .s a, .s b => a == b
  | .i a, .i b => a == b
  | .b a, .b b => a == b
  | .null, .null => true
  | .arr xs, .arr ys => jEqList xs ys
  | .obj xs, .obj ys => jEqFields xs ys
  | _, _ => false

/-- `==` on lists of values. -/
def jEqList : List JVal → List JVal → Bool
  | [], [] => true
  | x :: xs, y :: ys => jEq x y && jEqList xs ys
  | _, _ => false

/-- `==` on field lists. -/
def jEqFields : List (String × JVal) → List (String × JVal) → Bool
  | [], [] => true
  | a :: as, b :: bs => a.1 == b.1 && jEq a.2 b.2 && jEqFields as bs
  | _, _ => false
end

/-- `ImageData` of `src/models/property_data.py` (url, alt, title). -/
structure ImageData where
  url : String
  alt : Option String
  title : Option String


/-- `LinkData` (url, text, type). -/
structure LinkData where
  url : String
  text : Option String
  type : Option String


/-- `MetaData` (title, description, keywords, og_tags, schema_org);
`keywords`/`og_tags` are kept as raw values — the parsers forward them
unchanged. -/
structure MetaData where
  title : Option String
  description : Option String
  keywords : Option JVal
  og_tags : Option JVal
  schema_org : Option JVal


/-- `ExtractedContent` (text, sections, images, links, meta_tags, videos,
interactive_elements). -/
structure ExtractedContent where
  text : String
  sections : Option JVal
  images : List ImageData
  links : List LinkData
  meta_tags : Option MetaData
  videos : Option JVal
  interactive_elements : Option JVal


/-- `PropertyData` (property_name, provider, url, location, raw_html,
extracted_content, additional_metadata). -/
structure PropertyData where
  property_name : String
  provider : Option String
  url : String
  location : Option String
  raw_html : Option String
  extracted_content : ExtractedContent
  additional_metadata : Option (List (String × JVal))


/-- Errors the parser layer can raise. -/
inductive PyErr where
  | invalidJsonFormat
  | unsupportedInputType
  | attributeError
  | typeError
deriving DecidableEq, Repr


/-- Python's string coercion at a typed (pydantic) `str` field; the source
hands the raw value over, and every value the claims exercise is already
a string. -/
def coerceStr (v : JVal) : String := pyStrVal v


/-- Truthiness of an optional lookup result (`None` is falsy). -/
def optTruthy (o : Option JVal) : Bool :=
  match o with
  | some v => jTruthy v
  | none => false


/-- Python `a or b` on raw lookup results (the falsy-but-present left
value yields `b` exactly as in Python, since `get` models missing keys as
`none`/`None`). -/
def pyOrVal (a b : Option JVal) : Option JVal :=
  match a with
  | some v => if jTruthy v then some v else b
  | none => b


/-- Python `a != b` where either side may be `None`. -/
def pyNeqOpt (a b : Option JVal) : Bool :=
  match a, b with
  | some x, some y => !jEq x y
  | none, none => false
  | _, _ => true


/-- Python `sep.join(v)`: joins a list of strings (TypeError on non-string
elements or non-iterables), the characters of a string, or the keys of a
dict. -/
def pyJoinList (sep : String) (v : JVal) : Except PyErr String :=
  match v with
  | .arr xs =>
    (xs.mapM (fun x => (match x with
      | .s w => Except.ok w
      | _ => Except.error PyErr.typeError : Except PyErr String))).map
      (joinWith sep)
  | .s w => .ok (joinWith sep (w.data.map (fun c => String.mk [c])))
  | .obj fs2 => .ok (joinWith sep (fs2.map (fun kv => kv.1)))
  | _ => .error .typeError


/-- ASCII letter test. -/
def isAsciiAlpha (c : Char) : Bool :=
  ('a' ≤ c && c ≤ 'z') || ('A' ≤ c && c ≤ 'Z')


/-- ASCII upper-casing. -/
def upperChar (c : Char) : Char :=
  if 'a' ≤ c && c ≤ 'z' then Char.ofNat (c.toNat - 32) else c


/-- Python `str.title()` (ASCII): the first letter of each alphabetic run
is upper-cased, the rest lower-cased. -/
def pyTitleGo : Bool → List Char → List Char
  | _, [] => []
  | prevAlpha, c :: rest =>
    (if isAsciiAlpha c then (if prevAlpha then lowerChar c else upperChar c) else c) ::
    pyTitleGo (isAsciiAlpha c) rest


/-- Python `s.title()`. -/
def pyTitle (s : String) : String := String.mk (pyTitleGo false s.data)


/-- Python `s.replace(a, b)` for single characters. -/
def replaceAllChar (a b : Char) (s : String) : String :=
  String.mk (s.data.map (fun c => if c == a then b else c))


/-- Indentation of `json.dumps(..., indent=2)`. -/
def ind (n : Nat) : String := String.mk (List.replicate n ' ')


mutual
/-- `json.dumps(v, indent=2)` at a nesting level (string escaping
simplified: the claims never inspect this text). -/
def jsonDumps2 : Nat → JVal → String
  | _, .s v => "\"" ++ v ++ "\""
  | _, .i v => toString v
  | _, .b v => cond v "true" "false"
  | _, .null => "null"
  | _, .arr [] => "[]"
  | lvl, .arr (x :: xs) =>
    "[\n" ++ joinWith ",\n" (jsonDumpsList (lvl + 2) (x :: xs)) ++ "\n" ++
      ind lvl ++ "]"
  | _, .obj [] => "\x7b\x7d"
  | lvl, .obj (kv :: rest) =>
    "\x7b\n" ++ joinWith ",\n" (jsonDumpsFields (lvl + 2) (kv :: rest)) ++ "\n" ++
      ind lvl ++ "\x7d"

/-- Dumped array elements. -/
def jsonDumpsList : Nat → List JVal → List String
  | _, [] => []
  | lvl, x :: xs => (ind lvl ++ jsonDumps2 lvl x) :: jsonDumpsList lvl xs

/-- Dumped object fields. -/
def jsonDumpsFields : Nat → List (String × JVal) → List String
  | _, [] => []
  | lvl, kv :: rest =>
    (ind lvl ++ "\"" ++ kv.1 ++ "\": " ++ jsonDumps2 lvl kv.2) ::
      jsonDumpsFields lvl rest
end

/-- Python `s[:200] + "..." if len(s) > 200 else s`. -/
def truncate200 (s : String) : String :=
  if 200 < s.length then String.mk (s.data.take 200) ++ "..." else s


/-- `key in v` (Python membership: dict keys, list elements, substring;
TypeError on non-containers). -/
def pyContainsKey (v : JVal) (key : String) : Except PyErr Bool :=
  match v with
  | .obj fs => .ok (fs.any (fun kv => kv.1 == key))
  | .arr xs => .ok (xs.any (fun x => match x with
      | .s w => w == key
      | _ => false))
  | .s w => .ok (containsStr w key)
  | _ => .error .typeError


/-- `v[key]` (TypeError outside dicts; the call sites only reach it after
a successful membership test). -/
def pyIndex (v : JVal) (key : String) : Except PyErr JVal :=
  match v with
  | .obj fs =>
    match jGet fs key with
    | some x => .ok x
    | none => .error .typeError
  | _ => .error .typeError


/-- Keys consumed by the dedicated text-part builders (parsers.py 205-208). -/
def jsonHandledKeys : List String :=
  ["property_name", "name", "url", "source_link", "location", "address",
   "provider", "source", "description", "about", "overview", "pricing",
   "amenities", "features", "types", "room_types", "meta", "owner",
   "policies", "images", "links", "videos", "extracted_content"]


/-- Keys excluded from `additional_metadata` (parsers.py 291-294). -/
def jsonMetaExcluded : List String :=
  ["property_name", "name", "url", "source_link", "location", "provider",
   "source", "extracted_content"]


/-- `- item` formatting for amenity/feature lists; non-string non-dict
elements raise AttributeError as in `a.get('name', a)`. -/
def fmtNamedList (label : String) (v : Option JVal) : Except PyErr (List String) :=
  match v with
  | some (.arr xs) => do
    let items ← xs.mapM (fun a => match a with
      | .s w => Except.ok ("- " ++ w)
      | .obj af => Except.ok ("- " ++ pyStrVal ((jGet af "name").getD a))
      | _ => Except.error PyErr.attributeError)
    pure [label ++ joinWith "\n" items]
  | _ => pure []


/-- The `text_parts` assembly of `parse_json_to_property_data` (lines
115-211), in source order. -/
def buildJsonTextParts (fs : List (String × JVal)) (propertyName : String)
    (location : Option String) : Except PyErr (List String) := do
  let p1 : List String :=
    if propertyName != "" && propertyName != "Unknown Property"
    then ["Property: " ++ propertyName] else []
  let p2 : List String :=
    match location with
    | some l => if l != "" then ["Location: " ++ l] else []
    | none => []
  let p3 := match jGetTruthy fs "description" with
    | some v => ["\nDescription:\n" ++ pyStrVal v]
    | none => []
  let p4 := match jGetTruthy fs "about" with
    | some v => ["\nAbout:\n" ++ pyStrVal v]
    | none => []
  let p5 := match jGetTruthy fs "overview" with
    | some v => ["\nOverview:\n" ++ pyStrVal v]
    | none => []
  let p6 := match jGetTruthy fs "pricing" with
    | some (.obj pf) =>
      let currency := (jGet pf "currency").getD (.s "")
      let duration := (jGet pf "duration").getD (.s "")
      let minP := pyOrVal (jGet pf "min_price") (jGet pf "minPrice")
      let maxP := pyOrVal (jGet pf "max_price") (jGet pf "maxPrice")
      if optTruthy minP || optTruthy maxP then
        ["\nPricing:\n" ++
          (if optTruthy minP then
            "From " ++ pyStrVal currency ++ " " ++ pyStrVal (minP.getD .null) ++
              " " ++ pyStrVal duration ++ "\n" else "") ++
          (if optTruthy maxP && pyNeqOpt maxP minP then
            "To " ++ pyStrVal currency ++ " " ++ pyStrVal (maxP.getD .null) ++
              " " ++ pyStrVal duration ++ "\n" else "")]
      else []
    | _ => []
  let p7 ← fmtNamedList "\nAmenities:\n" (jGetTruthy fs "amenities")
  let p8 ← fmtNamedList "\nFeatures:\n" (jGetTruthy fs "features")
  let p9 := match jGetTruthy fs "types" with
    | some (.arr xs) =>
      ["\nRoom Types:\n" ++ joinWith "\n" (xs.map (fun t => "- " ++ pyStrVal t))]
    | _ => []
  let p10 := match jGetTruthy fs "room_types" with
    | some (.arr xs) =>
      ["\nRoom Types:\n" ++ joinWith "\n" (xs.map (fun rt =>
        "- " ++ (match rt with
          | .obj rf => pyStrVal ((jGet rf "name").getD rt)
          | _ => pyStrVal rt)))]
    | _ => []
  let p11 := match jGetTruthy fs "meta" with
    | some (.obj mf) =>
      (match jGetTruthy mf "facts" with
        | some (.arr facts) =>
          ["\nFacts:"] ++ facts.filterMap (fun fact => match fact with
            | .obj ff =>
              some ("- " ++ pyStrVal ((jGet ff "value").getD
                ((jGet ff "name").getD fact)))
            | _ => none)
        | _ => []) ++
      (match jGetTruthy mf "floor" with
        | some v => ["\nFloor: " ++ pyStrVal v]
        | none => []) ++
      (match jGetTruthy mf "ranking" with
        | some v => ["Ranking: " ++ pyStrVal v]
        | none => [])
    | _ => []
  let p12 ← match jGetTruthy fs "owner" with
    | some (.obj ofs) => do
      let e1 ← match jGetTruthy ofs "emails" with
        | some v => (pyJoinList ", " v).map (fun j => ["\nContact Email: " ++ j])
        | none => pure []
      let e2 ← match jGetTruthy ofs "phones" with
        | some v => (pyJoinList ", " v).map (fun j => ["Contact Phone: " ++ j])
        | none => pure []
      pure (e1 ++ e2)
    | _ => pure []
  let p13 ← match jGetTruthy fs "policies" with
    | some (.arr ps) => do
      let items ← ps.mapM (fun pol => match pol with
        | .s w => Except.ok ("- " ++ w)
        | .obj pf => Except.ok ("- " ++ pyStrVal ((jGet pf "name").getD pol))
        | _ => Except.error PyErr.attributeError)
      pure (["\nPolicies:"] ++ items)
    | _ => pure []
  let p14 := fs.filterMap (fun kv =>
    if jsonHandledKeys.contains kv.1 then none
    else match kv.2 with
      | .s w =>
        if w != "" && decide (w.length < 500)
        then some ("\n" ++ pyTitle (replaceAllChar '_' ' ' kv.1) ++ ": " ++ w)
        else none
      | _ => none)
  pure (p1 ++ p2 ++ p3 ++ p4 ++ p5 ++ p6 ++ p7 ++ p8 ++ p9 ++ p10 ++ p11 ++
    p12 ++ p13 ++ p14)


/-- Optional-string field from a raw lookup (a `None` value or a missing
key gives `none`). -/
def optFieldStr (o : Option JVal) : Option String :=
  match o with
  | some .null => none
  | some v => some (pyStrVal v)
  | none => none


/-- The image extraction of `parse_json_to_property_data` (lines 215-227). -/
def jsonImages (fs : List (String × JVal)) : List ImageData :=
  match jGetTruthy fs "images" with
  | some v =>
    (match v with
      | .arr xs => xs
      | _ => ([] : List JVal)).filterMap (fun (img : JVal) => match img with
      | .s w => some ⟨w, none, none⟩
      | .obj imf => some ⟨
          coerceStr ((pyOrVal (jGet imf "url") (pyOrVal (jGet imf "src")
            (some ((jGet imf "image_url").getD (.s ""))))).getD (.s "")),
          optFieldStr (pyOrVal (jGet imf "alt") (jGet imf "title")),
          optFieldStr (jGet imf "title")⟩
      | _ => none)
  | none => []


/-- The link extraction (lines 229-241). -/
def jsonLinks (fs : List (String × JVal)) : List LinkData :=
  match jGetTruthy fs "links" with
  | some v =>
    (match v with
      | .arr xs => xs
      | _ => ([] : List JVal)).filterMap (fun (link : JVal) => match link with
      | .s w => some ⟨w, none, none⟩
      | .obj lf => some ⟨
          coerceStr ((pyOrVal (jGet lf "url")
            (some ((jGet lf "href").getD (.s "")))).getD (.s "")),
          optFieldStr (pyOrVal (jGet lf "text") (jGet lf "title")),
          optFieldStr (jGet lf "type")⟩
      | _ => none)
  | none => []


/-- The meta-tag extraction (lines 243-253). -/
def jsonMetaTags (fs : List (String × JVal)) (propertyName fullText : String) :
    Option MetaData :=
  if optTruthy (jGet fs "meta_tags") || optTruthy (jGet fs "meta") then
    match (pyOrVal (jGet fs "meta_tags")
        (some ((jGet fs "meta").getD (.obj [])))).getD (.obj []) with
    | .obj mf => some ⟨
        some (match jGetTruthy mf "title" with
          | some v => pyStrVal v
          | none => propertyName),
        some (match jGetTruthy mf "description" with
          | some v => pyStrVal v
          | none => truncate200 fullText),
        (match jGet mf "keywords" with
          | some (.arr xs) => some (.arr xs)
          | _ => none),
        (match jGet mf "og_tags" with
          | some (.obj os) => some (.obj os)
          | _ => none),
        none⟩
    | _ => none
  else none


/-- `parse_json_to_property_data`: unwraps a `data` envelope and list
responses, resolves the fields, assembles the text, and builds the record.
The trailing isinstance safety net of lines 266-281 is a no-op here: in
the typed model `location` is always a string or absent. -/
def parseJsonToPropertyData (v : JVal) : Except PyErr PropertyData := do
  let c ← pyContainsKey v "data"
  let v1 ←
    if c then do
      let x ← pyIndex v "data"
      pure (match x with
        | .obj _ => x
        | _ => v)
    else pure v
  let v2 := match v1 with
    | .arr (x :: _) => x
    | _ => v1
  match v2 with
  | .obj fs => do
    let propertyName := (firstTruthy fs
      ["property_name", "name", "title", "property", "propertyName"]).elim
      "Unknown Property" coerceStr
    let url := (firstTruthy fs
      ["url", "source_link", "link", "property_url", "website",
       "sourceUrl"]).elim "https://example.com" coerceStr
    let location := match firstTruthy fs
        ["location", "address", "city", "area", "address_line_1"] with
      | some ld => resolveLocationData ld
      | none => none
    let provider := (firstTruthy fs
      ["provider", "source", "host", "owner_name"]).map coerceStr
    let parts ← buildJsonTextParts fs propertyName location
    let fullText :=
      if !parts.isEmpty then joinWith "\n" parts else jsonDumps2 0 (.obj fs)
    let images := jsonImages fs
    let links := jsonLinks fs
    let metaTags := jsonMetaTags fs propertyName fullText
    pure ⟨propertyName, provider, url, location, none,
      ⟨fullText, none, images.take 20, links.take 50,
        some (metaTags.getD
          ⟨some propertyName, some (truncate200 fullText), none, none, none⟩),
        none, none⟩,
      some (fs.filter (fun kv => !(jsonMetaExcluded.contains kv.1)))⟩
  | _ => .error .attributeError


/-! ## `parse_text_to_property_data` (ui/backend/parsers.py 300-400) -/

/-- Match a sequence of literal segments joined by `\s*` (IGNORECASE),
returning the remainder. -/
def matchSegsCI : List String → List Char → Option (List Char)
  | [], suf => some suf
  | seg :: rest, suf =>
    if ciLeadsWith seg.data suf then
      let after := suf.drop seg.data.length
      match rest with
      | [] => some after
      | _ :: _ => matchSegsCI rest (after.dropWhile isSpaceChar)
    else none


/-- `[\s:]+([^\n]+)` after a keyword: at least one separator, then the
rest of the line; the separator run backtracks by one character when
nothing else remains. -/
def sepCapture (r : List Char) : Option (List Char) :=
  let sLen := (r.takeWhile (fun c => isSpaceChar c || c == ':')).length
  if sLen == 0 then none
  else if sLen < r.length then some (r.drop sLen)
  else if 2 ≤ sLen then some (r.drop (sLen - 1))
  else none


/-- Alternation attempt of `(?:alt1|alt2|...)[\s:]+([^\n]+)` at one
position. -/
def kwAltsMatchAt (alts : List (List String)) (suf : List Char) : Option (List Char) :=
  alts.findSome? (fun alt =>
    match matchSegsCI alt suf with
    | some r => sepCapture r
    | none => none)


/-- `re.search` of the keyword-capture pattern over a line. -/
def kwScanGo (alts : List (List String)) (fuel : Nat) (l : List Char) :
    Option (List Char) :=
  match fuel, l with
  | 0, _ => none
  | _ + 1, [] => none
  | f + 1, c :: rest =>
    match kwAltsMatchAt alts (c :: rest) with
    | some cap => some cap
    | none => kwScanGo alts f rest


/-- Keyword-capture search on one line. -/
def kwLineSearch (alts : List (List String)) (line : String) : Option String :=
  (kwScanGo alts line.data.length line.data).map String.mk


/-- Name strategy 1 of `parse_text_to_property_data`: explicit
`property name`/`name`/`title` labels in the first 20 lines, kept when the
stripped capture has length 4-99. -/
def textNameS1 (lines : List String) : Option String :=
  (lines.take 20).findSome? (fun line =>
    match kwLineSearch [["property", "name"], ["name"], ["title"]] line with
    | some cap =>
      let cand := pyTrim cap
      if 3 < cand.length ∧ cand.length < 100 then some cand else none
    | none => none)


/-- Prefixes that disqualify a first-line name candidate. -/
def textNameForbidden : List String :=
  ["http", "www", "Location", "URL", "Description"]


/-- Name strategy 2: the first short non-empty line among the first 5 not
starting with a forbidden prefix. -/
def textNameS2 (lines : List String) : Option String :=
  (lines.take 5).findSome? (fun line =>
    let t := pyTrim line
    if t ≠ "" ∧ 3 < t.length ∧ t.length < 100 then
      if textNameForbidden.any (fun p => pyStartsWith t p) then none else some t
    else none)


/-- Class `[a-zA-Z\s&]` (or without `&`). -/
def nameClassChar (allowAmp : Bool) (c : Char) : Bool :=
  isAsciiAlpha c || isSpaceChar c || (allowAmp && c == '&')


/-- Alternation attempt of the trailing keyword of the name-like regex;
`true` marks `Apartments?`-style optional plural. -/
def kwTryAt (kws : List (String × Bool)) (suf : List Char) : Option Nat :=
  kws.findSome? (fun kw =>
    if leadsWith kw.1.data suf then
      let base := kw.1.data.length
      if kw.2 then
        match suf.drop base with
        | 's' :: _ => some (base + 1)
        | _ => some base
      else some base
    else none)


/-- Greedy backtracking of `[class]+(?:keyword)`: the largest keyword
offset wins; with `needWs` the character before the keyword must be
whitespace (`[class]+\s+keyword`). -/
def bestKwGo (kws : List (String × Bool)) (needWs : Bool) (run : List Char) :
    Nat → Option (Nat × Nat)
  | 0 => none
  | q + 1 =>
    let okWs := !needWs || (decide (1 ≤ q) && isSpaceChar (List.getD run q ' '))
    match (if okWs then kwTryAt kws (run.drop (q + 1)) else none) with
    | some klen => some (q + 1, klen)
    | none => bestKwGo kws needWs run q


/-- One name-like match attempt:
`[A-Z][a-zA-Z\s&]+(?:Court|House|...)`. -/
def nameLikeMatchAt (allowAmp needWs : Bool) (kws : List (String × Bool))
    (l : List Char) : Option (List Char) :=
  match l with
  | [] => none
  | c :: rest =>
    if 'A' ≤ c && c ≤ 'Z' then
      let run := rest.takeWhile (nameClassChar allowAmp)
      match bestKwGo kws needWs run run.length with
      | some qk => some (c :: run.take (qk.1 + qk.2))
      | none => none
    else none


/-- `re.search` of the name-like pattern. -/
def nameLikeScanGo (allowAmp needWs : Bool) (kws : List (String × Bool))
    (fuel : Nat) (l : List Char) : Option (List Char) :=
  match fuel, l with
  | 0, _ => none
  | _ + 1, [] => none
  | f + 1, c :: rest =>
    match nameLikeMatchAt allowAmp needWs kws (c :: rest) with
    | some m => some m
    | none => nameLikeScanGo allowAmp needWs kws f rest


/-- Trailing keywords of the text-path name regex. -/
def textNameKws : List (String × Bool) :=
  [("Court", false), ("House", false), ("Hall", false), ("Residence", false),
   ("Accommodation", false), ("Property", false), ("Living", false),
   ("Student", false), ("Apartment", true)]


/-- Name strategy 3: name-like capitalized phrases in the first 30 lines. -/
def textNameS3 (lines : List String) : Option String :=
  (lines.take 30).findSome? (fun line =>
    (nameLikeScanGo true false textNameKws line.data.length line.data).map
      (fun m => pyTrim (String.mk m)))


/-- The three name strategies in order, each tried only while the name is
still the `"Unknown Property"` default. -/
def textPropertyName (lines : List String) : String :=
  let n1 := match textNameS1 lines with
    | some n => n
    | none => "Unknown Property"
  let n2 :=
    if n1 == "Unknown Property" then
      match textNameS2 lines with
      | some n => n
      | none => n1
    else n1
  if n2 == "Unknown Property" then
    match textNameS3 lines with
    | some n => n
    | none => n2
  else n2


/-- Image extensions of the text-path image regex. -/
def imgExts : List String := ["jpg", "jpeg", "png", "gif", "webp"]


/-- Extension alternation after a dot (IGNORECASE). -/
def extMatchAt (suf : List Char) : Option Nat :=
  imgExts.findSome? (fun e =>
    if ciLeadsWith e.data suf then some e.data.length else none)


/-- Greedy `[^\s\n]+\.(?:ext)` inside a non-space run: the end of the
capture at the last dot followed by an extension (the dot needs at least
one character before it). -/
def lastDotExtGo (r : List Char) : Nat → Option Nat
  | 0 => none
  | i + 1 =>
    if 1 ≤ i then
      if List.getD r i 'x' == '.' then
        match extMatchAt (r.drop (i + 1)) with
        | some el => some (i + 1 + el)
        | none => lastDotExtGo r i
      else lastDotExtGo r i
    else none


/-- The `[\s:]+` separator with backtracking into the capture: capture
starts after `k` separator characters; on failure one trailing separator
character (necessarily `:`) moves into the capture. -/
def imgSepBacktrack (r : List Char) : Nat → Option (List Char × List Char)
  | 0 => none
  | k + 1 =>
    let rk := r.drop (k + 1)
    let run := rk.takeWhile (fun c => !isSpaceChar c)
    match lastDotExtGo run run.length with
    | some e => some (run.take e, rk.drop e)
    | none =>
      if k == 0 then none
      else if isSpaceChar (List.getD r k ' ') then none
      else imgSepBacktrack r k


/-- One attempt of
`(?:image|photo|img)[\s:]+([^\s\n]+\.(?:jpg|jpeg|png|gif|webp))`. -/
def imgKwMatchAt (suf : List Char) : Option (List Char × List Char) :=
  ["image", "photo", "img"].findSome? (fun k =>
    if ciLeadsWith k.data suf then
      let r := suf.drop k.data.length
      let sLen := (r.takeWhile (fun c => isSpaceChar c || c == ':')).length
      if sLen == 0 then none else imgSepBacktrack r sLen
    else none)


/-- `re.finditer` of the image pattern. -/
def scanImgGo (fuel : Nat) (l : List Char) : List (List Char) :=
  match fuel, l with
  | 0, _ => []
  | _ + 1, [] => []
  | f + 1, c :: rest =>
    match imgKwMatchAt (c :: rest) with
    | some capRem => capRem.1 :: scanImgGo f capRem.2
    | none => scanImgGo f rest


/-- Scanner of `re.finditer(r'(https?://[^\s\n\)]+)', clean_text)`
(case-sensitive, stop characters whitespace and `)`). -/
def scanTextLinksGo (fuel : Nat) (l : List Char) : List String :=
  match fuel, l with
  | 0, _ => []
  | _ + 1, [] => []
  | f + 1, c :: rest =>
    let schemeLen :=
      if leadsWith "https://".data (c :: rest) then some 8
      else if leadsWith "http://".data (c :: rest) then some 7
      else none
    match schemeLen with
    | some n =>
      let run := (c :: rest).takeWhile (fun ch => !(isSpaceChar ch || ch == ')'))
      if n < run.length then
        String.mk run :: scanTextLinksGo f ((c :: rest).drop run.length)
      else scanTextLinksGo f rest
    | none => scanTextLinksGo f rest


/-- `parse_text_to_property_data`: permissive plain-text parsing. -/
def parseTextToPropertyData (text defaultUrl : String) : PropertyData :=
  let lines := splitLines text
  let propertyName := textPropertyName lines
  let url := textResolveUrl text defaultUrl
  let location := (lines.findSome? (fun line =>
    kwLineSearch [["location"], ["address"], ["city"]] line)).map pyTrim
  let provider := (lines.findSome? (fun line =>
    kwLineSearch [["provider"], ["by"], ["hosted by"]] line)).map pyTrim
  let cleanText := joinWith "\n" (lines.filterMap (fun l =>
    let t := pyTrim l
    if t == "" then none else some t))
  let images := (scanImgGo cleanText.data.length cleanText.data).map
    (fun cap => (⟨String.mk cap, none, none⟩ : ImageData))
  let links := (scanTextLinksGo cleanText.data.length cleanText.data).filterMap
    (fun u => if u == url then none else some (⟨u, none, none⟩ : LinkData))
  ⟨propertyName, provider, url, location, none,
    ⟨cleanText, none, images.take 20, links.take 50,
      some ⟨some (propertyName ++ " | Property Details"),
        some (truncate200 cleanText), none, none, none⟩,
      none, none⟩,
    none⟩


/-! ## `parse_markdown_to_property_data` (ui/backend/parsers.py 403-604) -/

/-- Capture of `^#\s+(.+?)(?:\s*\{|$)` after the leading marker: skip the
whitespace run, cut before the first `{`, strip. (A heading whose text
starts with `{` is modelled as an empty capture.) -/
def hCaptureAfter (body : List Char) : String :=
  pyTrim (String.mk (takeUntilChar '\x7b' (body.dropWhile isSpaceChar)))


/-- H1 heading capture (`re.match(r'^#\s+(.+?)(?:\s*\{|$)', line)`). -/
def h1Capture (line : String) : Option String :=
  match line.data with
  | '#' :: c :: rest =>
    if isSpaceChar c then some (hCaptureAfter (c :: rest)) else none
  | _ => none


/-- H2 heading capture (`^##\s+(.+?)(?:\s*\{|$)`). -/
def h2Capture (line : String) : Option String :=
  match line.data with
  | '#' :: '#' :: c :: rest =>
    if isSpaceChar c then some (hCaptureAfter (c :: rest)) else none
  | _ => none


/-- `re.sub(r'\*\*([^*]+)\*\*', r'\1', s)`. -/
def subBoldGo (fuel : Nat) (l : List Char) : List Char :=
  match fuel, l with
  | 0, rest => rest
  | _ + 1, [] => []
  | f + 1, '*' :: '*' :: rest =>
    let content := rest.takeWhile (· != '*')
    if content.isEmpty then '*' :: subBoldGo f ('*' :: rest)
    else
      match rest.drop content.length with
      | '*' :: '*' :: r3 => content ++ subBoldGo f r3
      | _ => '*' :: subBoldGo f ('*' :: rest)
  | f + 1, c :: rest => c :: subBoldGo f rest


/-- `re.sub(r'\*([^\*]+)\*', r'\1', s)`. -/
def subItalicGo (fuel : Nat) (l : List Char) : List Char :=
  match fuel, l with
  | 0, rest => rest
  | _ + 1, [] => []
  | f + 1, '*' :: rest =>
    let content := rest.takeWhile (· != '*')
    if content.isEmpty then '*' :: subItalicGo f rest
    else
      match rest.drop content.length with
      | '*' :: r3 => content ++ subItalicGo f r3
      | _ => '*' :: subItalicGo f rest
  | f + 1, c :: rest => c :: subItalicGo f rest


/-- One `\[([^\]]+)\]\(([^\)]+)\)` match at the head: text, url,
remainder. -/
def mdLinkMatchAt (l : List Char) : Option (List Char × List Char × List Char) :=
  match l with
  | '[' :: rest =>
    let txt := rest.takeWhile (· != ']')
    if txt.isEmpty then none
    else
      match rest.drop txt.length with
      | ']' :: '(' :: r2 =>
        let u := r2.takeWhile (· != ')')
        if u.isEmpty then none
        else
          match r2.drop u.length with
          | ')' :: r3 => some (txt, u, r3)
          | _ => none
      | _ => none
  | _ => none


/-- `re.sub(r'\[([^\]]+)\]\([^\)]+\)', r'\1', s)`. -/
def subLinkGo (fuel : Nat) (l : List Char) : List Char :=
  match fuel, l with
  | 0, rest => rest
  | _ + 1, [] => []
  | f + 1, c :: rest =>
    match mdLinkMatchAt (c :: rest) with
    | some tur => tur.1 ++ subLinkGo f tur.2.2
    | none => c :: subLinkGo f rest


/-- One `!\[([^\]]*)\]\(([^\)]+)\)` match at the head: alt (possibly
empty), url, remainder. -/
def mdImageMatchAt (l : List Char) : Option (List Char × List Char × List Char) :=
  match l with
  | '!' :: '[' :: rest =>
    let alt := rest.takeWhile (· != ']')
    match rest.drop alt.length with
    | ']' :: '(' :: r2 =>
      let u := r2.takeWhile (· != ')')
      if u.isEmpty then none
      else
        match r2.drop u.length with
        | ')' :: r3 => some (alt, u, r3)
        | _ => none
    | _ => none
  | _ => none


/-- `re.sub(r'!\[([^\]]*)\]\([^\)]+\)', r'\1', s)`. -/
def subImgGo (fuel : Nat) (l : List Char) : List Char :=
  match fuel, l with
  | 0, rest => rest
  | _ + 1, [] => []
  | f + 1, c :: rest =>
    match mdImageMatchAt (c :: rest) with
    | some aur => aur.1 ++ subImgGo f aur.2.2
    | none => c :: subImgGo f rest


/-- `re.sub(r'^#+\s+', '', s, flags=re.MULTILINE)`: the marker run and the
following whitespace run (which may cross newlines) are removed at each
line start. -/
def subHeadersGo (fuel : Nat) (atStart : Bool) (l : List Char) : List Char :=
  match fuel, l with
  | 0, rest => rest
  | _ + 1, [] => []
  | f + 1, c :: rest =>
    if atStart && c == '#' then
      let hs := (c :: rest).takeWhile (· == '#')
      let afterH := (c :: rest).drop hs.length
      let ws := afterH.takeWhile isSpaceChar
      if ws.isEmpty then hs ++ subHeadersGo f false afterH
      else subHeadersGo f (ws.getLast? == some '\n') (afterH.drop ws.length)
    else c :: subHeadersGo f (c == '\n') rest


/-- The five cleanup substitutions of `parse_markdown_to_property_data`
(lines 575-585), in source order: image syntax, link syntax, headers,
bold, italic. -/
def mdCleanText (markdown : String) : String :=
  let t1 := subImgGo markdown.data.length markdown.data
  let t2 := subLinkGo t1.length t1
  let t3 := subHeadersGo t2.length true t2
  let t4 := subBoldGo t3.length t3
  String.mk (subItalicGo t4.length t4)


/-- The bold/link cleanup applied to a captured heading name. -/
def mdCleanName (s : String) : String :=
  let t1 := subBoldGo s.data.length s.data
  String.mk (subLinkGo t1.length t1)


/-- First `!\[([^\]]+)\]` match (the alt-text fallback for the name). -/
def scanImgAltGo (fuel : Nat) (l : List Char) : Option (List Char) :=
  match fuel, l with
  | 0, _ => none
  | _ + 1, [] => none
  | f + 1, '!' :: '[' :: rest =>
    let alt := rest.takeWhile (· != ']')
    if alt.isEmpty then scanImgAltGo f ('[' :: rest)
    else
      match rest.drop alt.length with
      | ']' :: _ => some alt
      | _ => scanImgAltGo f ('[' :: rest)
  | f + 1, _ :: rest => scanImgAltGo f rest


/-- Trailing keywords of the first markdown name pattern. -/
def mdNameKwsA : List (String × Bool) :=
  [("Court", false), ("House", false), ("Hall", false), ("Residence", false),
   ("Accommodation", false), ("Property", false)]


/-- Trailing keywords of the second markdown name pattern. -/
def mdNameKwsB : List (String × Bool) :=
  [("Court", false), ("House", false), ("Hall", false), ("Residence", false)]


/-- The four name strategies of `parse_markdown_to_property_data` (lines
412-454): H1, H2, image alt text, then the two name-like patterns over
the first 1000 characters. -/
def mdPropertyName (markdown : String) (lines : List String) : String :=
  let n1 := match (lines.take 50).findSome? h1Capture with
    | some c => mdCleanName c
    | none => "Unknown Property"
  let n2 :=
    if n1 == "Unknown Property" then
      match (lines.take 50).findSome? h2Capture with
      | some c => mdCleanName c
      | none => n1
    else n1
  let n3 :=
    if n2 == "Unknown Property" then
      match scanImgAltGo markdown.data.length markdown.data with
      | some alt =>
        let altText := pyTrim (String.mk alt)
        if 5 < altText.length ∧ altText.length < 100 then altText else n2
      | none => n2
    else n2
  if n3 == "Unknown Property" then
    match nameLikeScanGo false false mdNameKwsA 1000 (markdown.data.take 1000) with
    | some m => pyTrim (String.mk m)
    | none =>
      match nameLikeScanGo false true mdNameKwsB 1000 (markdown.data.take 1000) with
      | some m => pyTrim (String.mk m)
      | none => n3
  else n3


/-- `re.search(r'^###?\s+(?:kw1|kw2|...)', line, re.IGNORECASE)`. -/
def mdHeadingKwAt (kws : List String) (line : String) : Bool :=
  match line.data with
  | '#' :: '#' :: r0 =>
    let r1 := match r0 with
      | '#' :: r => r
      | _ => r0
    let w := r1.takeWhile isSpaceChar
    if w.isEmpty then false
    else kws.any (fun k => ciLeadsWith k.data (r1.drop w.length))
  | _ => false


/-- First keyword heading's following line, stripped (lines 528-541). -/
def findHeadingFollowing (kws : List String) : List String → Option String
  | [] => none
  | [_] => none
  | l1 :: l2 :: rest =>
    if mdHeadingKwAt kws l1 then some (pyTrim l2)
    else findHeadingFollowing kws (l2 :: rest)


/-- The description scan (lines 564-573): at the first
description/about/overview heading, join up to four following non-heading
non-empty lines; the scan stops there regardless. -/
def mdDescScan : List String → Option String
  | [] => none
  | line :: rest =>
    if mdHeadingKwAt ["description", "about", "overview"] line then
      let ds := (rest.take 4).filterMap (fun l =>
        let t := pyTrim l
        if t != "" && !pyStartsWith l "#" then some t else none)
      if ds.isEmpty then none else some (joinWith " " ds)
    else mdDescScan rest


/-- `re.finditer` of the image pattern over the whole document. -/
def scanMdImagesGo (fuel : Nat) (l : List Char) : List (String × String) :=
  match fuel, l with
  | 0, _ => []
  | _ + 1, [] => []
  | f + 1, c :: rest =>
    match mdImageMatchAt (c :: rest) with
    | some aur => (String.mk aur.1, String.mk aur.2.1) :: scanMdImagesGo f aur.2.2
    | none => scanMdImagesGo f rest


/-- `re.finditer` of the link pattern, keeping text and url. -/
def scanMdLinksFullGo (fuel : Nat) (l : List Char) : List (String × String) :=
  match fuel, l with
  | 0, _ => []
  | _ + 1, [] => []
  | f + 1, c :: rest =>
    match mdLinkMatchAt (c :: rest) with
    | some tur => (String.mk tur.1, String.mk tur.2.1) :: scanMdLinksFullGo f tur.2.2
    | none => scanMdLinksFullGo f rest


/-- `parse_markdown_to_property_data`. -/
def parseMarkdownToPropertyData (markdown defaultUrl : String) : PropertyData :=
  let lines := splitLines markdown
  let propertyName := mdPropertyName markdown lines
  let url := mdResolveUrl markdown defaultUrl
  let location := findHeadingFollowing ["location", "address", "city"] lines
  let provider := findHeadingFollowing ["provider", "by"] lines
  let images := (scanMdImagesGo markdown.data.length markdown.data).map
    (fun au => (⟨au.2, (if au.1 == "" then none else some au.1), none⟩ : ImageData))
  let links := (scanMdLinksFullGo markdown.data.length markdown.data).filterMap
    (fun tu =>
      if pyStartsWith tu.2 "#" then none
      else some (⟨tu.2, some tu.1, none⟩ : LinkData))
  let description := mdDescScan lines
  let cleanText := mdCleanText markdown
  ⟨propertyName, provider, url, location, none,
    ⟨cleanText, none, images.take 20, links.take 50,
      some ⟨some propertyName,
        some (description.getD (truncate200 cleanText)), none, none, none⟩,
      none, none⟩,
    none⟩


/-! ## `parse_input_to_property_data` (ui/backend/parsers.py 607-666) -/

/-- `re.search(r'^#+\s+', text, re.MULTILINE)`: a line-start `#` run
followed by at least one whitespace character (possibly the newline
itself). -/
def hasHeadingMarkerGo (fuel : Nat) (atStart : Bool) (l : List Char) : Bool :=
  match fuel, l with
  | 0, _ => false
  | _ + 1, [] => false
  | f + 1, c :: rest =>
    if atStart && c == '#' then
      let hs := (c :: rest).takeWhile (· == '#')
      let afterH := (c :: rest).drop hs.length
      match afterH with
      | c2 :: _ => if isSpaceChar c2 then true else hasHeadingMarkerGo f false afterH
      | [] => false
    else hasHeadingMarkerGo f (c == '\n') rest


/-- `re.search(r'\[([^\]]+)\]\(', text)`. -/
def hasBracketLinkGo (fuel : Nat) (l : List Char) : Bool :=
  match fuel, l with
  | 0, _ => false
  | _ + 1, [] => false
  | f + 1, '[' :: rest =>
    let txt := rest.takeWhile (· != ']')
    if txt.isEmpty then hasBracketLinkGo f rest
    else
      match rest.drop txt.length with
      | ']' :: '(' :: _ => true
      | _ => hasBracketLinkGo f rest
  | f + 1, _ :: rest => hasBracketLinkGo f rest


/-- The markdown auto-detection of `parse_input_to_property_data`
(line 648). -/
def mdDetect (text : String) : Bool :=
  hasHeadingMarkerGo text.data.length true text.data ||
  hasBracketLinkGo text.data.length text.data


/-- The inputs the dynamically-typed top-level parser receives: an
already-parsed record, a dict, a string, or anything else. -/
inductive ParseInput where
  | pd (p : PropertyData)
  | dict (fields : List (String × JVal))
  | str (s : String)
  | other


/-- `parse_input_to_property_data`: identity on records, the JSON
normalizer on dicts, declared-or-detected parsing on strings, and a
`ValueError` on unsupported input types. -/
def parseInputToPropertyData (data : ParseInput) (inputFormat defaultUrl : String) :
    Except PyErr PropertyData :=
  match data with
  | .pd p => .ok p
  | .dict fs => parseJsonToPropertyData (.obj fs)
  | .str sIn =>
    let text := pyTrim sIn
    if inputFormat == "auto" then
      if pyStartsWith text "\x7b" || pyStartsWith text "[" then
        match jsonParse text with
        | some v => parseJsonToPropertyData v
        | none =>
          if mdDetect text then .ok (parseMarkdownToPropertyData text defaultUrl)
          else .ok (parseTextToPropertyData text defaultUrl)
      else
        if mdDetect text then .ok (parseMarkdownToPropertyData text defaultUrl)
        else .ok (parseTextToPropertyData text defaultUrl)
    else if inputFormat == "json" then
      match jsonParse text with
      | some v => parseJsonToPropertyData v
      | none => .error .invalidJsonFormat
    else if inputFormat == "markdown" then
      .ok (parseMarkdownToPropertyData text defaultUrl)
    else .ok (parseTextToPropertyData text defaultUrl)
  | .other => .error .unsupportedInputType


/-- A concrete record for the identity witness. -/
def samplePropertyData : PropertyData :=
  ⟨"Sample Property", none, "https://example.com/p/1", none, none,
    ⟨"Sample text", none, [], [], none, none, none⟩, none⟩


/-! ## Theorems -/

example : inferSectionName "About the Property" = "about" := by decide

example : inferSectionName "Frequently Asked Questions" = "faqs" := by decide

example : inferSectionName "My Odd Heading!" = "my_odd_heading" := by decide


/-- C1 (counterexample): an about/overview heading is mapped to the slug
`"about"`, which is not `"property_overview"` and is not a member of the
21-slug canonical taxonomy. -/
theorem C1_counterexample :
    inferSectionName "About" = "about" ∧
    inferSectionName "About" ≠ "property_overview" ∧
    ("about" ∈ canonicalTaxonomy) = False := by
  refine ⟨by decide, by decide, by simp [canonicalTaxonomy]⟩


/-- C1 (amended): heading-to-slug mapping tests the keyword groups in the
fixed source order with first match winning (equivalently, it is the
ordered-table lookup `applyKeywordGroups` over `sectionKeywordGroups`),
unmatched headings are slugified, and the slugs produced for the
about/location/features/bills+payment/payment/cancellation/offers/reviews/
contact groups are short names that are not members of the 21-slug
canonical taxonomy, while the amenities/room_types/pricing/faqs/
nearby_places/bills_included groups do yield taxonomy members. -/
theorem C1_amended_ordered_groups :
    (∀ heading : String,
      inferSectionName heading = applyKeywordGroups sectionKeywordGroups (pyLower heading)) ∧
    (["about", "location", "features", "bills_and_payments", "payment",
      "cancellation", "offers", "reviews", "contact"].all
        (fun s => !(canonicalTaxonomy.contains s))) = true ∧
    (["amenities", "room_types", "pricing", "faqs", "nearby_places",
      "bills_included"].all (fun s => canonicalTaxonomy.contains s)) = true := by
  refine ⟨?_, by decide, by decide⟩
  intro heading
  simp only [inferSectionName, applyKeywordGroups, sectionKeywordGroups,
    matchesGroup, cond_false, cond_true, List.any_cons, List.any_nil,
    List.all_cons, List.all_nil, Bool.or_false, Bool.and_true, Bool.or_assoc]


/-- C4: for alt-text-like fallbacks, name resolution returns the first
qualifying heading (captured text of length 4-79 without the tokens
`Overview`/`Bedroom`/`Amenities`) among the first 20 lines, else the part
of the fallback before its first `" - "`; the spec's `1Ten` example
resolves to `"1Ten On Whyte - Student Living"`; a missing candidate gives
`"Unknown Property"`. -/
theorem C4_name_resolution :
    (∀ (text fb : String),
      (containsStr fb " - Bedroom" || containsStr fb " - Amenities" ||
        containsStr fb " - Kitchen") = true →
      fb ≠ "" →
      extractRealPropertyName text (some fb) =
        match ((splitLines text).take 20).findSome? qualifyingHeading with
        | some c => c
        | none => pyTrim (String.mk (takeUntilSub (" - ".data) fb.data))) ∧
    extractRealPropertyName c4Text (some c4Fallback) =
      "1Ten On Whyte - Student Living" ∧
    (∀ text : String, extractRealPropertyName text none = "Unknown Property") := by
  refine ⟨?_, by decide, fun _ => rfl⟩
  intro text fb hmark hne
  have hbne : (fb != "") = true := by
    simpa [bne_iff_ne] using hne
  simp [extractRealPropertyName, hbne, hmark]


/-- C4 witness: the universal part of `C4_name_resolution` applied at the
spec's concrete example. -/
theorem C4_witness :
    extractRealPropertyName c4Text (some c4Fallback) =
      "1Ten On Whyte - Student Living" :=
  (C4_name_resolution.1 c4Text c4Fallback (by decide) (by decide)).trans (by decide)


example : extractItemsFromText c2Content = ["Apple", "Banana", "Cherry"] := by decide

example : faqQuestionCaptures c2Content = ["Is parking available?"] := by decide


/-- C2 (counterexample): although the bullet strategy already produced 3
items, the FAQ-slug regex still contributes a fourth item, so the first
successful strategy does not determine the result. -/
theorem C2_counterexample :
    extractItemsFromFirecrawlContent c2Content "faqs" =
      ["Apple", "Banana", "Cherry", "Is parking available?"] ∧
    extractItemsFromFirecrawlContent c2Content "faqs" ≠
      ["Apple", "Banana", "Cherry"] := by
  exact ⟨by decide, by decide⟩


/-- C2 (amended): strategies 2 and 3 are gated on the accumulated item
count being below 3 (and append to, rather than replace, earlier output),
while the slug-specific FAQ/room regexes run unconditionally for matching
slugs; hence for a slug matching none of `faq`/`question`/`room`, once the
bullet strategy alone yields at least 3 items the result is exactly its
output, strip-deduplicated and capped at 50. -/
theorem C2_amended_cascade (content name : String)
    (h3 : 3 ≤ (extractItemsFromText content).length)
    (hfaq : containsStr (pyLower name) "faq" = false)
    (hq : containsStr (pyLower name) "question" = false)
    (hroom : containsStr (pyLower name) "room" = false) :
    extractItemsFromFirecrawlContent content name =
      (dedupStripMin2 (extractItemsFromText content)).take 50 := by
  have h1 : (extractItemsFromText content).isEmpty = false := by
    cases h : extractItemsFromText content with
    | nil => rw [h] at h3; simp at h3
    | cons a l => rfl
  have h2 : decide ((extractItemsFromText content).length < 3) = false := by
    simp; omega
  simp [extractItemsFromFirecrawlContent, h1, h2, hfaq, hq, hroom]


/-- C2 witness: the amended cascade theorem at a concrete bullet list with
a non-FAQ slug. -/
theorem C2_witness :
    extractItemsFromFirecrawlContent "- Apple\n- Banana\n- Cherry" "amenities" =
      (dedupStripMin2 (extractItemsFromText "- Apple\n- Banana\n- Cherry")).take 50 :=
  C2_amended_cascade "- Apple\n- Banana\n- Cherry" "amenities"
    (by decide) (by decide) (by decide) (by decide)


example : strategyASections "Payment Policies (2)\n- X\n- X\n" = [] := by decide

example : (policyBlockSection "Payment Policies (2)\n- X\n- X\n" "Payment Policies" "Cancellation" "payment" "Payment Policies") = some ⟨"payment", "Payment Policies", "- X\n- X", ["X", "X"]⟩ := by decide

example : amenitySections "Payment Policies (2)\n- X\n- X\n" = [] := by decide

example : billsSections "Payment Policies (2)\n- X\n- X\n" = [] := by decide

example : faqSpecialSection "Payment Policies (2)\n- X\n- X\n" = none := by decide

example : roomTypesSections "Payment Policies (2)\n- X\n- X\n" = [] := by decide

example : offersSection "Payment Policies (2)\n- X\n- X\n" = none := by decide

example : removeNavigationNoise "Payment Policies (2)\n- X\n- X\n" = "Payment Policies (2)\n- X\n- X\n" := by decide

example :
    extractFirecrawlSections "Payment Policies (2)\n- X\n- X\n" =
      [⟨"payment", "Payment Policies", "- X\n- X", ["X", "X"]⟩] := by decide



theorem filterByName_append (n : String) (a b : List PreSection) :
    filterByName n (a ++ b) = filterByName n a ++ filterByName n b :=
  List.filter_append a b


theorem filterByName_cons_self (n : String) (s : PreSection) (l : List PreSection)
    (h : s.original_name = n) : filterByName n (s :: l) = s :: filterByName n l := by
  simp [filterByName, List.filter_cons, h]


theorem filterByName_cons_other (n : String) (s : PreSection) (l : List PreSection)
    (h : ¬s.original_name = n) : filterByName n (s :: l) = filterByName n l := by
  simp [filterByName, List.filter_cons, h]


theorem filterByName_filter_not_self (n : String) (l : List PreSection) :
    filterByName n (l.filter (fun t => !(t.original_name == n))) = [] := by
  rw [filterByName, List.filter_filter]
  simp


theorem filterByName_filter_other (n m : String) (l : List PreSection)
    (h : ¬m = n) :
    filterByName n (l.filter (fun t => !(t.original_name == m))) = filterByName n l := by
  rw [filterByName, List.filter_filter, filterByName]
  apply List.filter_congr
  intro t _
  by_cases ht : t.original_name = n
  · have hnm : ¬n = m := fun hnm => h hnm.symm
    simp [ht, hnm]
  · simp [ht]


theorem singleton_of_length_le_one {w : PreSection} {ws : List PreSection}
    (h : (w :: ws).length ≤ 1) : ws = [] := by
  simpa using h


theorem mergeStep_filter (st : List String × List PreSection) (s : PreSection)
    (n : String) (hinv : MergeInv st) :
    filterByName n (mergeStep st s).2 =
      if s.original_name = n then
        match filterByName n st.2 with
        | [] => [s]
        | w :: _ => [replaceIfMore w s]
      else filterByName n st.2 := by
  unfold mergeStep
  by_cases hc : st.1.contains s.original_name = true
  · obtain ⟨hiff, hlen⟩ := hinv s.original_name
    have hne : filterByName s.original_name st.2 ≠ [] := hiff.mp hc
    obtain ⟨w, ws, hfw0⟩ : ∃ w ws, filterByName s.original_name st.2 = w :: ws := by
      cases h : filterByName s.original_name st.2 with
      | nil => exact absurd h hne
      | cons a l => exact ⟨a, l, rfl⟩
    have hws : ws = [] := singleton_of_length_le_one (hfw0 ▸ hlen)
    have hfw : filterByName s.original_name st.2 = [w] := by rw [hfw0, hws]
    have hcur : currentItemsLen st.2 s.original_name = w.items.length := by
      unfold currentItemsLen
      rw [show (st.2.filter (fun t => t.original_name == s.original_name)) =
        filterByName s.original_name st.2 from rfl, hfw]
      rfl
    rw [if_pos hc]
    by_cases hlt : currentItemsLen st.2 s.original_name < s.items.length
    · rw [if_pos hlt]
      by_cases hn : s.original_name = n
      · subst hn
        rw [filterByName_append, filterByName_filter_not_self, if_pos rfl, hfw]
        simp [replaceIfMore, hcur ▸ hlt, filterByName]
      · rw [filterByName_append,
          filterByName_filter_other n s.original_name _ (fun hmn => hn hmn),
          filterByName_cons_other n s [] hn, if_neg hn]
        simp [filterByName]
    · rw [if_neg hlt]
      by_cases hn : s.original_name = n
      · subst hn
        rw [if_pos rfl, hfw]
        have hnlt : ¬w.items.length < s.items.length := by
          rw [hcur] at hlt; exact hlt
        simp [replaceIfMore, hnlt, hfw]
      · rw [if_neg hn]
  · rw [if_neg hc]
    have hfe : filterByName s.original_name st.2 = [] := by
      by_contra h
      exact hc ((hinv s.original_name).1.mpr h)
    by_cases hn : s.original_name = n
    · subst hn
      rw [filterByName_append, hfe, filterByName_cons_self _ s [] rfl, if_pos rfl]
      simp [filterByName]
    · rw [filterByName_append, filterByName_cons_other n s [] hn, if_neg hn]
      simp [filterByName]


theorem contains_append_one (l : List String) (x a : String) :
    (l ++ [x]).contains a = (l.contains a || x == a) := by
  induction l with
  | nil =>
    simp only [List.nil_append, List.contains, List.elem_cons]
    by_cases h : a = x
    · simp [h, beq_iff_eq]
    · have h1 : (a == x) = false := by simpa [beq_iff_eq] using h
      have h2 : (x == a) = false := by simpa [beq_iff_eq] using fun he => h he.symm
      simp [h1, h2, List.contains]
  | cons b bs ih =>
    simp only [List.cons_append, List.contains, List.elem_cons] at *
    rw [ih]
    cases a == b <;> simp [Bool.or_assoc]


theorem mergeStep_inv (st : List String × List PreSection) (s : PreSection)
    (hinv : MergeInv st) : MergeInv (mergeStep st s) := by
  intro m
  have hfilter := mergeStep_filter st s m hinv
  obtain ⟨hiff, hlen⟩ := hinv m
  have hseen : ((mergeStep st s).1 = st.1 ∧ st.1.contains s.original_name = true) ∨
      ((mergeStep st s).1 = st.1 ++ [s.original_name] ∧
        st.1.contains s.original_name = false) := by
    unfold mergeStep pySeenAdd
    by_cases hc : st.1.contains s.original_name = true
    · by_cases hlt : currentItemsLen st.2 s.original_name < s.items.length
      · left; rw [if_pos hc, if_pos hlt]; exact ⟨by rw [if_pos hc], hc⟩
      · left; rw [if_pos hc, if_neg hlt]; exact ⟨rfl, hc⟩
    · right
      rw [if_neg hc]
      rw [Bool.not_eq_true] at hc
      exact ⟨by rw [if_neg (by rw [hc]; simp)], hc⟩
  refine ⟨?_, ?_⟩
  · rw [hfilter]
    by_cases hn : s.original_name = m
    · subst hn
      rcases hseen with ⟨h, hctrue⟩ | ⟨h, hcf⟩
      · rw [h, if_pos rfl]
        have hne := hiff.mp hctrue
        cases hfw : filterByName s.original_name st.2 with
        | nil => exact absurd hfw hne
        | cons w ws =>
          constructor
          · intro _; simp
          · intro _; exact hctrue
      · rw [h, contains_append_one, if_pos rfl]
        have hfe : filterByName s.original_name st.2 = [] := by
          by_contra hne2
          rw [hiff.mpr hne2] at hcf
          exact absurd hcf (by simp)
        rw [hfe, hcf]
        simp
    · rcases hseen with ⟨h, _⟩ | ⟨h, _⟩
      · rw [h, if_neg hn]
        exact hiff
      · rw [h, contains_append_one, if_neg hn]
        have hbe : (s.original_name == m) = false := by
          simpa [beq_iff_eq] using hn
        rw [hbe, Bool.or_false]
        exact hiff
  · rw [hfilter]
    by_cases hn : s.original_name = m
    · subst hn
      rw [if_pos rfl]
      cases hfw : filterByName s.original_name st.2 with
      | nil => simp
      | cons w ws => simp
    · rw [if_neg hn]
      exact hlen


theorem foldl_mergeStep_filter (l : List PreSection)
    (st : List String × List PreSection) (n : String) (hinv : MergeInv st) :
    filterByName n ((l.foldl mergeStep st).2) =
      winnersFrom (filterByName n st.2) (filterByName n l) := by
  induction l generalizing st with
  | nil =>
    simp only [List.foldl_nil]
    obtain ⟨_, hlen⟩ := hinv n
    cases hfw : filterByName n st.2 with
    | nil => rfl
    | cons w ws =>
      have hws : ws = [] := singleton_of_length_le_one (hfw ▸ hlen)
      subst hws
      rfl
  | cons s l ih =>
    rw [List.foldl_cons,
      ih (mergeStep st s) (mergeStep_inv st s hinv),
      mergeStep_filter st s n hinv]
    by_cases hn : s.original_name = n
    · rw [if_pos hn, filterByName_cons_self n s l hn]
      cases hfw : filterByName n st.2 with
      | nil => rfl
      | cons w ws => rfl
    · rw [if_neg hn, filterByName_cons_other n s l hn]


theorem mergeInv_init : MergeInv ([], []) := by
  intro m
  constructor
  · constructor
    · intro h; exact absurd h (by simp [List.contains])
    · intro h; exact absurd rfl h
  · simp [filterByName]


/-- Characterization of `mergeSections` for a single name: the winner is
the fold of `replaceIfMore` over the candidates of that name. -/
theorem mergeSections_filter_eq (l : List PreSection) (n : String) :
    filterByName n (mergeSections l) =
      match filterByName n l with
      | [] => []
      | c :: cs => [cs.foldl replaceIfMore c] := by
  have h := foldl_mergeStep_filter l ([], []) n mergeInv_init
  rw [mergeSections, h]
  cases hfw : filterByName n l with
  | nil => rfl
  | cons c cs => rfl


/-- C7: the merger keeps exactly one winner per section name: the
first-discovered candidate for that name, replaced by a later candidate
for the same name exactly when the later candidate has strictly more items
(the `replaceIfMore` fold); a name without candidates has no winner. -/
theorem C7_merge_one_winner (l : List PreSection) (n : String) :
    filterByName n (mergeSections l) =
      match filterByName n l with
      | [] => []
      | c :: cs => [cs.foldl replaceIfMore c] :=
  mergeSections_filter_eq l n


/-! ## Item-list invariants (deduplication, length bounds) -/

theorem contains_cons_false {c x : String} {seen : List String}
    (h : (c :: seen).contains x = false) : seen.contains x = false := by
  simp only [List.contains, List.elem_cons] at h ⊢
  cases hbe : x == c with
  | true => rw [hbe] at h; simp at h
  | false => rw [hbe] at h; exact h


theorem dedupStripMin2Aux_mem : ∀ (l seen : List String) (x : String),
    x ∈ dedupStripMin2Aux seen l → seen.contains x = false ∧ 2 ≤ x.length := by
  intro l
  induction l with
  | nil => intro seen x h; simp [dedupStripMin2Aux] at h
  | cons y ys ih =>
    intro seen x h
    simp only [dedupStripMin2Aux] at h
    split at h
    · rename_i hcond
      simp only [Bool.and_eq_true, bne_iff_ne, ne_eq, Bool.not_eq_true',
        decide_eq_true_eq] at hcond
      rcases List.mem_cons.mp h with hx | hx
      · subst hx
        exact ⟨hcond.1.2, by omega⟩
      · obtain ⟨hc, hl⟩ := ih (pyTrim y :: seen) x hx
        exact ⟨contains_cons_false hc, hl⟩
    · exact ih seen x h


theorem dedupStripMin2Aux_nodup : ∀ (l seen : List String),
    (dedupStripMin2Aux seen l).Nodup := by
  intro l
  induction l with
  | nil => intro seen; simp [dedupStripMin2Aux]
  | cons y ys ih =>
    intro seen
    simp only [dedupStripMin2Aux]
    split
    · refine List.nodup_cons.mpr ⟨?_, ih (pyTrim y :: seen)⟩
      intro hmem
      have hc := (dedupStripMin2Aux_mem ys (pyTrim y :: seen) _ hmem).1
      simp [List.contains, List.elem_cons] at hc
    · exact ih seen


theorem dedupFirstAux_mem : ∀ (l seen : List String) (x : String),
    x ∈ dedupFirstAux seen l → seen.contains x = false ∧ x ∈ l := by
  intro l
  induction l with
  | nil => intro seen x h; simp [dedupFirstAux] at h
  | cons y ys ih =>
    intro seen x h
    simp only [dedupFirstAux] at h
    split at h
    · obtain ⟨hc, hm⟩ := ih seen x h
      exact ⟨hc, List.mem_cons_of_mem _ hm⟩
    · rename_i hcond
      rcases List.mem_cons.mp h with hx | hx
      · subst hx
        exact ⟨by simpa using hcond, List.mem_cons_self _ _⟩
      · obtain ⟨hc, hm⟩ := ih (y :: seen) x hx
        exact ⟨contains_cons_false hc, List.mem_cons_of_mem _ hm⟩


theorem dedupFirstAux_nodup : ∀ (l seen : List String),
    (dedupFirstAux seen l).Nodup := by
  intro l
  induction l with
  | nil => intro seen; simp [dedupFirstAux]
  | cons y ys ih =>
    intro seen
    simp only [dedupFirstAux]
    split
    · exact ih seen
    · refine List.nodup_cons.mpr ⟨?_, ih (y :: seen)⟩
      intro hmem
      have hc := (dedupFirstAux_mem ys (y :: seen) _ hmem).1
      simp [List.contains, List.elem_cons] at hc


theorem dedupFirst_nodup (l : List String) : (dedupFirst l).Nodup :=
  dedupFirstAux_nodup l []


theorem dedupFirst_subset (l : List String) : dedupFirst l ⊆ l :=
  fun _ hx => (dedupFirstAux_mem l [] _ hx).2


/-- C3 conjunct 1 helper: every item list produced by the heading-strategy
item extractor is deduplicated, capped at 50 and free of items shorter
than 2 characters. -/
theorem extractItems_invariants (content name : String) :
    (extractItemsFromFirecrawlContent content name).length ≤ 50 ∧
    (extractItemsFromFirecrawlContent content name).Nodup ∧
    ∀ x ∈ extractItemsFromFirecrawlContent content name, 2 ≤ x.length := by
  unfold extractItemsFromFirecrawlContent
  refine ⟨?_, ?_, ?_⟩
  · rw [List.length_take]
    exact inf_le_left
  · exact List.Nodup.sublist (List.take_sublist _ _) (dedupStripMin2Aux_nodup _ [])
  · intro x hx
    exact (dedupStripMin2Aux_mem _ [] x (List.take_subset _ _ hx)).2


theorem amenityMultiPass_items_subset : ∀ (ps : List String)
    (items : List String) (lc : List Char) (x : String),
    x ∈ (amenityMultiPass ps (items, lc)).1 → x ∈ items ∨ x ∈ ps := by
  intro ps
  induction ps with
  | nil => intro items lc x h; exact Or.inl h
  | cons p ps ih =>
    intro items lc x h
    simp only [amenityMultiPass] at h
    split at h
    · rcases ih _ _ x h with hm | hm
      · rcases List.mem_append.mp hm with hm' | hm'
        · exact Or.inl hm'
        · simp at hm'
          subst hm'
          exact Or.inr (List.mem_cons_self _ _)
      · exact Or.inr (List.mem_cons_of_mem _ hm)
    · rcases ih _ _ x h with hm | hm
      · exact Or.inl hm
      · exact Or.inr (List.mem_cons_of_mem _ hm)


theorem amenitySinglesPass_subset : ∀ (ws : List (List Char))
    (items : List String) (x : String),
    x ∈ amenitySinglesPass ws items → x ∈ items ∨ x ∈ knownAmenitySingles := by
  intro ws
  induction ws with
  | nil => intro items x h; exact Or.inl h
  | cons w rest ih =>
    intro items x h
    simp only [amenitySinglesPass] at h
    split at h
    · rename_i hcond
      rcases ih _ x h with hm | hm
      · rcases List.mem_append.mp hm with hm' | hm'
        · exact Or.inl hm'
        · simp at hm'
          subst hm'
          have := (Bool.and_eq_true _ _).mp hcond
          exact Or.inr (List.elem_iff.mp this.1)
      · exact Or.inr hm
    · rcases ih _ x h with hm | hm
      · exact Or.inl hm
      · exact Or.inr hm


theorem amenityLineSection_items (line : String) (s : PreSection)
    (h : amenityLineSection line = some s) :
    s.items.length ≤ 50 ∧ s.items.Nodup ∧ ∀ x ∈ s.items, 2 ≤ x.length := by
  simp only [amenityLineSection] at h
  split at h
  · split at h
    · rename_i hcount hlen3
      have hs : s.items =
          (dedupFirst (amenitySinglesPass
            (pySplitWs (amenityMultiPass knownAmenityPatterns ([], line.data)).2)
            (amenityMultiPass knownAmenityPatterns ([], line.data)).1)).filter
            (fun i => decide (2 < i.length)) := by
        have := Option.some.inj h
        rw [← this]
      have hnodup : s.items.Nodup := by
        rw [hs]
        exact List.Nodup.filter _ (dedupFirst_nodup _)
      refine ⟨?_, hnodup, ?_⟩
      · have hsub : s.items ⊆ amenityVocabulary := by
          intro x hx
          rw [hs] at hx
          have hx1 := List.mem_of_mem_filter hx
          have hx2 := dedupFirst_subset _ hx1
          rcases amenitySinglesPass_subset _ _ x hx2 with hm | hm
          · rcases amenityMultiPass_items_subset _ _ _ x hm with hm' | hm'
            · simp at hm'
            · exact List.mem_append.mpr (Or.inl hm')
          · exact List.mem_append.mpr (Or.inr hm)
        have hle := (List.subperm_of_subset hnodup hsub).length_le
        have hv : amenityVocabulary.length = 22 := by decide
        omega
      · intro x hx
        rw [hs] at hx
        have := List.of_mem_filter hx
        simp only [decide_eq_true_eq] at this
        omega
    · exact absurd h (by simp)
  · exact absurd h (by simp)


theorem billsLineSection_items (line : String) (s : PreSection)
    (h : billsLineSection line = some s) :
    s.items.length ≤ 50 ∧ s.items.Nodup ∧ ∀ x ∈ s.items, 2 ≤ x.length := by
  simp only [billsLineSection] at h
  split at h
  · split at h
    · have hs : s.items = dedupFirst (knownBills.filter (fun p => containsStr line p)) := by
        have := Option.some.inj h
        rw [← this]
      have hnodup : s.items.Nodup := hs ▸ dedupFirst_nodup _
      refine ⟨?_, hnodup, ?_⟩
      · have hsub : s.items ⊆ knownBills := by
          intro x hx
          rw [hs] at hx
          exact List.mem_of_mem_filter (dedupFirst_subset _ hx)
        have hle := (List.subperm_of_subset hnodup hsub).length_le
        have hv : knownBills.length = 9 := by decide
        omega
      · intro x hx
        have hsub : x ∈ knownBills := by
          rw [hs] at hx
          exact List.mem_of_mem_filter (dedupFirst_subset _ hx)
        have hall : knownBills.all (fun b => decide (2 ≤ b.length)) = true := by decide
        have := List.all_eq_true.mp hall x hsub
        simpa using this
    · exact absurd h (by simp)
  · exact absurd h (by simp)


theorem mergeSections_names_nodup (l : List PreSection) :
    ((mergeSections l).map PreSection.original_name).Nodup := by
  rw [List.nodup_iff_count_le_one]
  intro a
  have h1 : List.count a ((mergeSections l).map PreSection.original_name) =
      (filterByName a (mergeSections l)).length := by
    rw [List.count, List.countP_map, List.countP_eq_length_filter]
    rfl
  rw [h1, mergeSections_filter_eq]
  cases filterByName a l with
  | nil => simp
  | cons c cs => simp


/-- C3 (counterexample): a `Payment Policies (N)` block with the dash lines
`- X`, `- X` produces a record whose only section has item list
`["X", "X"]`: a case-sensitive duplicate with entries of length 1, so the
special-case sections do not obey the dedup/minimum-length invariant. -/
theorem C3_counterexample :
    (extractFirecrawlSections "Payment Policies (2)\n- X\n- X\n").map PreSection.items =
      [["X", "X"]] ∧
    ¬(["X", "X"] : List String).Nodup ∧
    ¬2 ≤ ("X" : String).length := by
  refine ⟨by decide, by decide, by decide⟩


/-- C3 (amended): the heading-strategy item extractor always yields lists
that are capped at 50, duplicate-free and free of items shorter than 2
characters; the merged record holds at most one section per slug; and the
amenities/bills keyword-density sections obey the same item invariants.
The FAQ/room-type special sections are deduplicated but not capped, and
the payment/cancellation/offers special sections take raw dash-line
captures (not deduplicated, not capped, entries may have length 1). -/
theorem C3_amended_invariants :
    (∀ content name : String,
      (extractItemsFromFirecrawlContent content name).length ≤ 50 ∧
      (extractItemsFromFirecrawlContent content name).Nodup ∧
      ∀ x ∈ extractItemsFromFirecrawlContent content name, 2 ≤ x.length) ∧
    (∀ l : List PreSection, ((mergeSections l).map PreSection.original_name).Nodup) ∧
    (∀ text : String, ∀ s ∈ amenitySections text ++ billsSections text,
      s.items.length ≤ 50 ∧ s.items.Nodup ∧ ∀ x ∈ s.items, 2 ≤ x.length) := by
  refine ⟨extractItems_invariants, mergeSections_names_nodup, ?_⟩
  intro text s hs
  rcases List.mem_append.mp hs with hm | hm
  · unfold amenitySections at hm
    cases hfind : (splitLines text).findSome? amenityLineSection with
    | some t =>
      rw [hfind] at hm
      simp at hm
      subst hm
      obtain ⟨line, _, hline⟩ := List.exists_of_findSome?_eq_some hfind
      exact amenityLineSection_items line _ hline
    | none => rw [hfind] at hm; simp at hm
  · unfold billsSections at hm
    cases hfind : (splitLines text).findSome? billsLineSection with
    | some t =>
      rw [hfind] at hm
      simp at hm
      subst hm
      obtain ⟨line, _, hline⟩ := List.exists_of_findSome?_eq_some hfind
      exact billsLineSection_items line _ hline
    | none => rw [hfind] at hm; simp at hm


/-- C3 witness: the invariants applied at a concrete bullet-list content
and at a concrete item of its output. -/
theorem C3_witness :
    2 ≤ ("Apple" : String).length ∧
    (extractItemsFromFirecrawlContent "- Apple\n- Banana\n- Cherry" "beds").length ≤ 50 :=
  ⟨(C3_amended_invariants.1 "- Apple\n- Banana\n- Cherry" "beds").2.2 "Apple" (by decide),
   (C3_amended_invariants.1 "- Apple\n- Banana\n- Cherry" "beds").1⟩


/-- C6 (counterexample): a truthy location object with no recognized
fields resolves to the stringified object, not to an absent location. -/
theorem C6_counterexample :
    resolveLocationData (.obj [("foo", .s "bar")]) = some "\x7b'foo': 'bar'\x7d" ∧
    resolveLocationData (.obj [("foo", .s "bar")]) ≠ none := by
  have h1 : resolveLocationData (.obj [("foo", JVal.s "bar")]) =
      some "\x7b'foo': 'bar'\x7d" := rfl
  exact ⟨h1, by rw [h1]; simp⟩


/-- C6 (amended): for object-valued location input the resolved string is
the comma-join of the `str` of the truthy fields in the fixed order name,
address, street, city, state/region, country, postal/zip (equivalently the
preference-order table `locationFieldOrder`); the `{"name":"X","city":"Y",
"country":"Z"}` example gives exactly `"X, Y, Z"`; but when no ordered
field and none of the formatted-address/display-name/label/lat+lng
fallbacks are truthy, a truthy (non-empty) object resolves to the Python
stringification of the object — the location is `none` only for falsy
location data. -/
theorem C6_amended_location :
    (∀ fs : List (String × JVal), locationParts fs = locationPartsSpec fs) ∧
    resolveLocationData
      (.obj [("name", .s "X"), ("city", .s "Y"), ("country", .s "Z")]) =
      some "X, Y, Z" ∧
    (∀ fs : List (String × JVal),
      fs ≠ [] →
      locationParts fs = [] →
      jGetTruthy fs "formatted_address" = none →
      jGetTruthy fs "display_name" = none →
      jGetTruthy fs "label" = none →
      (jGetTruthy fs "lat" = none ∨ jGetTruthy fs "lng" = none) →
      resolveLocationData (.obj fs) = some (pyStrVal (.obj fs))) := by
  refine ⟨?_, by rfl, ?_⟩
  · intro fs
    unfold locationParts locationPartsSpec locationFieldOrder
    simp only [List.filterMap_cons, List.filterMap_nil, List.findSome?]
    cases jGetTruthy fs "name" <;>
      cases jGetTruthy fs "address" <;>
      cases jGetTruthy fs "street" <;>
      cases jGetTruthy fs "city" <;>
      cases jGetTruthy fs "state" <;>
      cases jGetTruthy fs "region" <;>
      cases jGetTruthy fs "country" <;>
      cases jGetTruthy fs "postal_code" <;>
      cases jGetTruthy fs "zip_code" <;>
        simp [optPart, orTruthy]
  · intro fs hne hparts hfa hdn hlab hll
    have htr : jTruthy (JVal.obj fs) = true := by
      cases fs with
      | nil => exact absurd rfl hne
      | cons a l => rfl
    unfold resolveLocationData
    rw [htr]
    simp only [Bool.not_true, Bool.false_eq_true, if_false]
    rw [hparts]
    simp only [List.isEmpty_nil, Bool.not_false, if_true]
    rw [hfa, hdn, hlab]
    rcases hll with h | h
    · rw [h]
      cases jGetTruthy fs "lng" <;> rfl
    · rw [h]
      cases jGetTruthy fs "lat" <;> rfl


/-- C6 witness: the general stringification branch applied at the concrete
unrecognized-field object. -/
theorem C6_witness :
    resolveLocationData (.obj [("foo", .s "bar")]) =
      some (pyStrVal (.obj [("foo", .s "bar")])) :=
  C6_amended_location.2.2 [("foo", .s "bar")] (by simp) (by rfl)
    (by rfl) (by rfl) (by rfl) (Or.inl (by rfl))


example : c8Text.length = 20 := by decide


/-- C8 (counterexample): the empty record returned for a 20-character
input has zero sections but carries no `confidence_score` key at all, so
it does not have confidence score 0. -/
theorem C8_counterexample :
    topLookup (simpleExtract (fun _ => none) c8Text "P" "https://u") "sections" =
      some (.arr []) ∧
    topLookup (simpleExtract (fun _ => none) c8Text "P" "https://u")
      "confidence_score" = none := by
  exact ⟨rfl, rfl⟩


/-- C8 (amended): for every input whose text is shorter than 50
characters the extractor returns, without consulting the LLM, the fixed
empty result: zero `sections_count`, `total_items`, `total_word_count`,
an empty `sections` list and zeroed metrics — but no `confidence_score`
field (a consumer reading that key with default 0 observes 0). -/
theorem C8_amended_short_input (llm : String → Option JVal)
    (text propertyName url : String) (h : text.length < 50) :
    simpleExtract llm text propertyName url = emptyResult propertyName url ∧
    topLookup (simpleExtract llm text propertyName url) "sections" =
      some (.arr []) ∧
    topLookup (simpleExtract llm text propertyName url) "sections_count" =
      some (.i 0) ∧
    topLookup (simpleExtract llm text propertyName url) "total_items" =
      some (.i 0) ∧
    topLookup (simpleExtract llm text propertyName url) "total_word_count" =
      some (.i 0) ∧
    topLookup (simpleExtract llm text propertyName url) "confidence_score" =
      none := by
  have hcond : (text == "" || decide (text.length < 50)) = true := by
    simp [h]
  have hext : simpleExtract llm text propertyName url =
      emptyResult propertyName url := by
    unfold simpleExtract
    rw [hcond]
    simp
  exact ⟨hext, by rw [hext]; rfl, by rw [hext]; rfl, by rw [hext]; rfl,
    by rw [hext]; rfl, by rw [hext]; rfl⟩


/-- C8 witness: the short-input theorem at the concrete 20-character
text. -/
theorem C8_witness :
    simpleExtract (fun _ => none) c8Text "P" "https://u" = emptyResult "P" "https://u" :=
  (C8_amended_short_input (fun _ => none) c8Text "P" "https://u" (by decide)).1


example : mdUrlCandidates c5DocA = [("https://example.com/property/123", 16)] := by decide

example : mdUrlCandidates c5DocB = [("https://example.com/property/123", 16)] := by decide


/-- C5 (counterexample): on the plain-text path, URL resolution returns
the first URL of the document, so with the asset URL first it returns the
CDN asset and not the listing URL. -/
theorem C5_counterexample :
    textResolveUrl c5DocA "https://example.com" = "https://cdn.example.com/logo.svg" ∧
    textResolveUrl c5DocA "https://example.com" ≠ "https://example.com/property/123" := by
  exact ⟨by rfl, by decide⟩


/-- C5 (amended): the markdown path selects the listing URL over the
asset URL regardless of their order, and its candidate list never holds a
URL whose lowercase form contains an asset/social/CDN keyword (such
candidates are discarded before scoring); the plain-text path instead
returns the first URL of the document, so it returns the listing URL only
when that URL comes first. -/
theorem C5_amended_url_resolution :
    mdResolveUrl c5DocA "https://example.com" = "https://example.com/property/123" ∧
    mdResolveUrl c5DocB "https://example.com" = "https://example.com/property/123" ∧
    textResolveUrl c5DocB "https://example.com" = "https://example.com/property/123" ∧
    (∀ (markdown : String) (p : String × Int), p ∈ mdUrlCandidates markdown →
      mdSkipKeywords.all (fun k => !containsStr (pyLower p.1) k) = true) := by
  refine ⟨by rfl, by rfl, by rfl, ?_⟩
  intro markdown p hp
  obtain ⟨line, _, hline⟩ := List.mem_flatMap.mp hp
  have hsome : ∃ basePri raw, cleanScoreCandidate basePri raw = some p := by
    rcases List.mem_append.mp hline with h1 | h1
    · rcases List.mem_append.mp h1 with h2 | h2
      · rcases List.mem_append.mp h2 with h3 | h3
        · obtain ⟨raw, _, hr⟩ := List.mem_filterMap.mp h3
          exact ⟨3, raw, hr⟩
        · obtain ⟨raw, _, hr⟩ := List.mem_filterMap.mp h3
          exact ⟨2, raw, hr⟩
      · obtain ⟨raw, _, hr⟩ := List.mem_filterMap.mp h2
        exact ⟨1, raw, hr⟩
    · obtain ⟨raw, _, hr⟩ := List.mem_filterMap.mp h1
      exact ⟨0, raw, hr⟩
  obtain ⟨basePri, raw, hr⟩ := hsome
  simp only [cleanScoreCandidate] at hr
  split at hr
  · exact absurd hr (by simp)
  · rename_i u hu
    split at hr
    · exact absurd hr (by simp)
    · rename_i hskip
      have hp1 : p.1 = u := by
        have := Option.some.inj hr
        rw [← this]
      rw [hp1]
      rw [Bool.not_eq_true] at hskip
      rw [List.all_eq_true]
      intro k hk
      rw [List.any_eq_false] at hskip
      simp only [Bool.not_eq_true']
      exact Bool.not_eq_true _ ▸ hskip k hk


/-- C5 witness: the no-asset-keyword property applied at the concrete
listing candidate of the example document. -/
theorem C5_witness :
    mdSkipKeywords.all
      (fun k => !containsStr (pyLower ("https://example.com/property/123", (16 : Int)).1) k) = true :=
  C5_amended_url_resolution.2.2.2 c5DocA ("https://example.com/property/123", 16)
    (by decide)


example : jsonParse "[1, 2]" = some (.arr [.i 1, .i 2]) := by rfl

example : jsonParse "not json" = none := by rfl

example : jsonParse "\x7b bad" = none := by rfl

example : jsonParse "\x7b\"a\": \"b\"\x7d" = some (.obj [("a", .s "b")]) := by rfl


/-- C9 (counterexample): the auto-detected input `"[1, 2]"` parses as
JSON but normalizes to a non-dict, and the JSON normalizer then raises an
AttributeError — the parse neither returns a record nor raises only for
explicitly-declared unparsable JSON. -/
theorem C9_counterexample :
    parseInputToPropertyData (.str "[1, 2]") "auto" "https://example.com" =
      .error .attributeError := by
  rfl


/-- C9 (amended): a format error (`ValueError`) is raised exactly for
explicitly-declared JSON that fails to parse and for unsupported input
types; JSON that parses to a non-object value raises an
attribute/type error inside the JSON normalizer instead of degrading; the
markdown and text formats, and auto-detected strings not starting with a
bracket, always return a record. -/
theorem C9_amended_error_behavior :
    (∀ s d : String, jsonParse (pyTrim s) = none →
      parseInputToPropertyData (.str s) "json" d = .error .invalidJsonFormat) ∧
    (∀ s d : String, ∀ v : JVal, jsonParse (pyTrim s) = some v →
      parseInputToPropertyData (.str s) "json" d = parseJsonToPropertyData v) ∧
    (∀ fmt d : String, parseInputToPropertyData .other fmt d =
      .error .unsupportedInputType) ∧
    (∀ s d : String,
      parseInputToPropertyData (.str s) "markdown" d =
        .ok (parseMarkdownToPropertyData (pyTrim s) d)) ∧
    (∀ s d : String,
      parseInputToPropertyData (.str s) "text" d =
        .ok (parseTextToPropertyData (pyTrim s) d)) ∧
    (∀ s d : String,
      pyStartsWith (pyTrim s) "\x7b" = false →
      pyStartsWith (pyTrim s) "[" = false →
      parseInputToPropertyData (.str s) "auto" d =
        .ok (if mdDetect (pyTrim s) then parseMarkdownToPropertyData (pyTrim s) d
             else parseTextToPropertyData (pyTrim s) d)) := by
  refine ⟨?_, ?_, fun _ _ => rfl, fun _ _ => rfl, fun _ _ => rfl, ?_⟩
  · intro s d h
    simp [parseInputToPropertyData, h]
  · intro s d v h
    simp [parseInputToPropertyData, h]
  · intro s d h1 h2
    simp only [parseInputToPropertyData]
    rw [h1, h2]
    simp only [Bool.or_self]
    cases hd : mdDetect (pyTrim s) <;> simp [hd]


/-- C9 witness: the declared-JSON error case at a concrete unparsable
string, and the auto path at a concrete bracket-free string. -/
theorem C9_witness :
    parseInputToPropertyData (.str "not json") "json" "https://example.com" =
      .error .invalidJsonFormat ∧
    parseInputToPropertyData (.str "plain words") "auto" "https://example.com" =
      .ok (if mdDetect (pyTrim "plain words")
           then parseMarkdownToPropertyData (pyTrim "plain words") "https://example.com"
           else parseTextToPropertyData (pyTrim "plain words") "https://example.com") :=
  ⟨C9_amended_error_behavior.1 "not json" "https://example.com" (by rfl),
   C9_amended_error_behavior.2.2.2.2.2 "plain words" "https://example.com"
     (by rfl) (by rfl)⟩


/-- C10: the top-level parse returns already-parsed records unchanged,
for every declared format; hence parsing is idempotent: re-parsing any
successful result (under any format) returns it unchanged. -/
theorem C10_identity_idempotent :
    (∀ (p : PropertyData) (fmt d : String),
      parseInputToPropertyData (.pd p) fmt d = .ok p) ∧
    (∀ (x : ParseInput) (f g d d' : String) (r : PropertyData),
      parseInputToPropertyData x f d = .ok r →
      parseInputToPropertyData (.pd r) g d' = .ok r) := by
  refine ⟨fun _ _ _ => rfl, ?_⟩
  intro x f g d d' r _
  rfl


/-- C10 witness: idempotence applied at a concrete record input. -/
theorem C10_witness :
    parseInputToPropertyData (.pd samplePropertyData) "markdown" "https://example.com" =
      .ok samplePropertyData :=
  C10_identity_idempotent.2 (.pd samplePropertyData) "auto" "markdown"
    "https://example.com" "https://example.com" samplePropertyData rfl

